import Mathlib

/-!
Shallow embedding of `src/warzone_map_utils/validators/inss_validator.py`
(the Earthsea bonus-hierarchy validation engine) and proofs about it.

Modelling conventions:
* Python `int` ids and bonus values become `Int`; sizes and cardinalities
  become `Nat`.
* Python `set[int]` becomes `Finset Int`.
* Python `dict` becomes an association list built with `pyDictInsert`,
  which mirrors CPython semantics: updating an existing key keeps its
  position, a new key is appended; iteration over `.values()` is iteration
  over the list.
* Python `str.split(' ')` / `' '.join` are embedded at the character-list
  level (`splitSpaces` / `joinSpaces`) with Python's exact semantics
  (splitting at every single space, keeping empty fragments).
* A `print` of a violation message becomes one constructor of `Diag`.
* Code that can raise becomes `Option`/`Except PyError`; a `none`/`.error`
  result models an uncaught Python exception.
-/

/-- One diagnostic line printed by the validator.  Each constructor
corresponds to one `print(...)` call in the Python source, carrying the
data interpolated into the message. -/
inductive Diag where
  /-- `Bonus {name} should have {intended} territories. It has {actual} territories.` -/
  | wrongSize (bonusName : String) (intended actual : Nat)
  /-- `Bonus {name} should have value {intended}. Value is {actual}.` -/
  | wrongValue (bonusName : String) (intended actual : Int)
  /-- `Bonus {sub} should have no territories that are not in base bonus {base}.` -/
  | notSubset (subName baseName : String)
  /-- `Bonus {name} should have {expected} sub-bonuses of size {size}. There are {actual} ...` -/
  | wrongSubBonusCount (baseName : String) (expected size actual : Nat)
  /-- `Bonus {name} should have no overlapping sub-bonuses of size {size}.` -/
  | notDistinct (baseName : String) (size : Nat)
  /-- `The ocean and the base territories should be disjoint sets. {ids} are in both sets.` -/
  | oceanOverlap (ids : Finset Int)
  /-- `The ocean and base territories should contain all territories. {ids} are in neither set.` -/
  | oceanIncomplete (ids : Finset Int)
  /-- `Bonus {bonus} should include all sea territories that border {territory}.` -/
  | seaMismatch (bonusName territoryName : String)
  deriving DecidableEq

/-- The Python exception classes the validator can raise, abstracted to
their class.  `keyError` and `indexError` are subclasses of `LookupError`
in Python; `valueError` and `attributeError` are not. -/
inductive PyError where
  | keyError
  | indexError
  | valueError
  | attributeError
  deriving DecidableEq

/-- Whether the exception class is a subclass of Python `LookupError`. -/
def PyError.isLookupError : PyError → Bool
  | .keyError => true
  | .indexError => true
  | _ => false

/-- `class Territory` (fields only; `connection_ids` is `set(connectedTo)`). -/
structure Territory where
  territory_id : Int
  name : String
  connection_ids : Finset Int
  deriving DecidableEq

/-- `class Bonus` data fields. -/
structure Bonus where
  bonus_id : Int
  name : String
  value : Int
  territory_ids : Finset Int
  deriving DecidableEq

/-- `Bonus.validate`: `return True`, printing nothing. -/
def Bonus.validate (_ : Bonus) : Bool × List Diag :=
  (true, [])

/-- Python `str.split(' ')` on a character list: split at every single
space, keeping empty fragments.  `''.split(' ') == ['']`, and
`'a  b'.split(' ') == ['a', '', 'b']`. -/
def splitSpaces : List Char → List (List Char)
  | [] => [[]]
  | c :: rest =>
    let r := splitSpaces rest
    if c = ' ' then [] :: r
    else
      match r with
      | [] => [[c]]
      | t :: ts => (c :: t) :: ts

/-- Python `' '.join(...)` on character-list fragments. -/
def joinSpaces : List (List Char) → List Char
  | [] => []
  | [t] => t
  | t :: ts => t ++ ' ' :: joinSpaces ts

/-- `int(token[0])` for the trailing whitespace-delimited token of a name,
then `+ 1`: the body of `SubBonus.get_sub_bonus_size` /
`SubBonus.intended_size`, `int(name.split(' ')[-1][0]) + 1`.
`[0]` on an empty token raises `IndexError`; `int` on a non-digit raises
`ValueError`. -/
def parseSizeToken (n : String) : Except PyError Nat :=
  match (splitSpaces n.toList).getLastD [] with
  | [] => .error .indexError
  | c :: _ => if c.isDigit then .ok (c.toNat - 48 + 1) else .error .valueError

/-- `SubBonus.get_sub_bonus_size`, as a partial function (`none` models the
raised exception). -/
def get_sub_bonus_size (sub_bonus_name : String) : Option Nat :=
  (parseSizeToken sub_bonus_name).toOption

/-- `SubBonus.get_base_bonus_name`:
`' '.join(sub_bonus_name[1:].split(' ')[:-1])`. -/
def get_base_bonus_name (sub_bonus_name : String) : String :=
  ⟨joinSpaces ((splitSpaces (sub_bonus_name.toList.drop 1)).dropLast)⟩

/-- `class SubBonus` data fields.  The Python object holds a reference to
its owning `BaseBonus`; every use of that reference reads only the plain
`Bonus`-level fields (`name`, `territory_ids` and their cardinality), all
of which are immutable after construction, so the reference is embedded as
a snapshot of those fields. -/
structure SubBonus where
  bonus_id : Int
  name : String
  value : Int
  territory_ids : Finset Int
  base_bonus : Bonus
  deriving DecidableEq

/-- `SubBonus.INTENDED_VALUE_BY_SIZE` (the "partial" reward table);
`none` models a `KeyError` on lookup. -/
def SubBonus.INTENDED_VALUE_BY_SIZE : Nat → Option Int
  | 2 => some 1
  | 3 => some (-1)
  | 4 => some 2
  | 5 => some (-4)
  | 6 => some 8
  | _ => none

/-- `SubBonus.INTENDED_VALUE_BY_SIZE_FULL` (the "full" reward table). -/
def SubBonus.INTENDED_VALUE_BY_SIZE_FULL : Nat → Option Int
  | 2 => some 1
  | 3 => some (-2)
  | 4 => some 0
  | 5 => some (-6)
  | 6 => some 5
  | _ => none

/-- `SubBonus.intended_size`: `int(self.name.split(' ')[-1][0]) + 1`. -/
def SubBonus.intended_size (s : SubBonus) : Option Nat :=
  get_sub_bonus_size s.name

/-- `SubBonus.intended_value`: pick the full table when `len(self) ==
len(self.base_bonus)`, else the partial table, and key it by
`intended_size`. -/
def SubBonus.intended_value (s : SubBonus) : Option Int :=
  match s.intended_size with
  | none => none
  | some k =>
    if s.territory_ids.card = s.base_bonus.territory_ids.card
    then SubBonus.INTENDED_VALUE_BY_SIZE_FULL k
    else SubBonus.INTENDED_VALUE_BY_SIZE k

/-- `SubBonus.validate`: checks size, value and subset in that order,
printing one line per failed check, and returns the conjunction.  `none`
models an exception escaping (unparseable name or a reward-table
`KeyError`). -/
def SubBonus.validate (s : SubBonus) : Option (Bool × List Diag) :=
  match s.intended_size with
  | none => none
  | some isz =>
    let d1 : List Diag :=
      if s.territory_ids.card = isz then [] else
        [Diag.wrongSize s.name isz s.territory_ids.card]
    match s.intended_value with
    | none => none
    | some iv =>
      let d2 : List Diag :=
        if s.value = iv then [] else [Diag.wrongValue s.name iv s.value]
      let d3 : List Diag :=
        if s.territory_ids \ s.base_bonus.territory_ids = ∅ then [] else
          [Diag.notSubset s.name s.base_bonus.name]
      some (decide (s.territory_ids.card = isz) && decide (s.value = iv) &&
              decide (s.territory_ids \ s.base_bonus.territory_ids = ∅),
            d1 ++ d2 ++ d3)

/-- `BaseBonus.INTENDED_VALUE_BY_SIZE`. -/
def BaseBonus.INTENDED_VALUE_BY_SIZE : Nat → Option Int
  | 2 => some 0
  | 3 => some 1
  | 4 => some 2
  | 5 => some 2
  | 6 => some 3
  | _ => none

/-- `class BaseBonus` data fields.  `sub_bonuses : Dict[int, Set[SubBonus]]`
is an insertion-ordered dict from size to the set of sub-bonuses of that
size; a Python set of (identity-hashed, pairwise-distinct) objects is
embedded as the list of its elements in some iteration order. -/
structure BaseBonus where
  bonus_id : Int
  name : String
  value : Int
  territory_ids : Finset Int
  base_territory_id : Int
  sub_bonuses : List (Nat × List SubBonus)
  deriving DecidableEq

/-- The default `sub_bonuses` value:
`{i: set() for i in range(2, len(self) + 1)}`. -/
def initSubBuckets (n : Nat) : List (Nat × List SubBonus) :=
  (List.range' 2 (n - 1)).map (fun k => (k, []))

/-- The `Bonus`-level fields of a `BaseBonus` (what a `SubBonus` back
reference reads). -/
def BaseBonus.toBonus (b : BaseBonus) : Bonus :=
  ⟨b.bonus_id, b.name, b.value, b.territory_ids⟩

/-- `BaseBonus.sea_territory_ids`:
`self.territory_ids - {self.base_territory_id}`. -/
def BaseBonus.sea_territory_ids (b : BaseBonus) : Finset Int :=
  b.territory_ids.erase b.base_territory_id

/-- The `validates &= sub_bonus.validate()` loop over one size bucket. -/
def validateSubs : List SubBonus → Option (Bool × List Diag)
  | [] => some (true, [])
  | s :: rest =>
    match s.validate, validateSubs rest with
    | some (v, d), some (vr, dr) => some (v && vr, d ++ dr)
    | _, _ => none

/-- The `for i, sub_bonuses in self.sub_bonuses.items()` loop of
`BaseBonus.validate`: for every size bucket, the count check against
`math.comb(len(self) - 1, i - 1)` (whose diagnostic interpolates
`math.comb(len(self), i)`), the distinctness check
`len({tuple(sub.territory_ids) ...}) == len(sub_bonuses)`, then every
sub-bonus's own checks.  `n` is `len(self)` of the base bonus. -/
def validateBuckets (bname : String) (n : Nat) :
    List (Nat × List SubBonus) → Option (Bool × List Diag)
  | [] => some (true, [])
  | (k, subs) :: rest =>
    match validateSubs subs, validateBuckets bname n rest with
    | some (vs, ds), some (vr, dr) =>
      some ((decide (subs.length = Nat.choose (n - 1) (k - 1)) &&
               decide (((subs.map (fun s => s.territory_ids)).dedup).length =
                 subs.length) && vs) && vr,
            (if subs.length = Nat.choose (n - 1) (k - 1) then [] else
               [Diag.wrongSubBonusCount bname (Nat.choose n k) k subs.length]) ++
            (if ((subs.map (fun s => s.territory_ids)).dedup).length = subs.length
             then [] else [Diag.notDistinct bname k]) ++ ds ++ dr)
    | _, _ => none

/-- `BaseBonus.validate`: value check against the base reward table, then
the per-size-bucket checks. -/
def BaseBonus.validate (b : BaseBonus) : Option (Bool × List Diag) :=
  match BaseBonus.INTENDED_VALUE_BY_SIZE b.territory_ids.card with
  | none => none
  | some iv =>
    match validateBuckets b.name b.territory_ids.card b.sub_bonuses with
    | none => none
    | some (v, d) =>
      some (decide (b.value = iv) && v,
            (if b.value = iv then [] else [Diag.wrongValue b.name iv b.value]) ++ d)

/-- A bonus as stored in the map's `id → Bonus` table after classification:
either a plain `Bonus` (the ocean bonus), a `BaseBonus`, or a `SubBonus`.
Python dispatches `bonus.validate()` dynamically on the runtime class; the
variant tag plays that role here. -/
inductive CBonus where
  | plain (b : Bonus)
  | base (b : BaseBonus)
  | sub (s : SubBonus)
  deriving DecidableEq

/-- `bonus.bonus_id` through the dynamic dispatch. -/
def CBonus.bonus_id : CBonus → Int
  | .plain b => b.bonus_id
  | .base b => b.bonus_id
  | .sub s => s.bonus_id

/-- The `Bonus`-level fields of a classified bonus (any variant has them). -/
def CBonus.toBonus : CBonus → Bonus
  | .plain b => b
  | .base b => b.toBonus
  | .sub s => ⟨s.bonus_id, s.name, s.value, s.territory_ids⟩

/-- `bonus.validate()` through the dynamic dispatch. -/
def CBonus.validate : CBonus → Option (Bool × List Diag)
  | .plain b => some (Bonus.validate b)
  | .base b => b.validate
  | .sub s => s.validate

/-- `dict[k]` on an association list (Python dicts built by
`pyDictInsert` have pairwise-distinct keys). -/
def pyGet {α β : Type} [DecidableEq α] : List (α × β) → α → Option β
  | [], _ => none
  | p :: rest, k => if p.1 = k then some p.2 else pyGet rest k

/-- Whether the dict has the key. -/
def pyHasKey {α β : Type} [DecidableEq α] (d : List (α × β)) (k : α) : Bool :=
  d.any (fun p => decide (p.1 = k))

/-- `dict[k] = v` with CPython semantics: an existing key keeps its
position (its value is replaced), a new key is appended. -/
def pyDictInsert {α β : Type} [DecidableEq α] (d : List (α × β)) (k : α) (v : β) :
    List (α × β) :=
  if pyHasKey d k then d.map (fun p => if p.1 = k then (k, v) else p)
  else d ++ [(k, v)]

/-- `{key(x): x for x in xs}`. -/
def pyDictOf {α β : Type} [DecidableEq α] (key : β → α) (xs : List β) :
    List (α × β) :=
  xs.foldl (fun d x => pyDictInsert d (key x) x) []

/-- `class EarthseaMap(Map)` after classification: `territories` is the
`id → Territory` dict, `bonuses` the `id → Bonus` dict of classified
bonuses. -/
structure EarthseaMap where
  map_id : Int
  name : String
  territories : List (Int × Territory)
  bonuses : List (Int × CBonus)
  deriving DecidableEq

/-- `EarthseaMap.OCEAN_BONUS_ID = 1`. -/
def OCEAN_BONUS_ID : Int := 1

/-- `EarthseaMap.ocean_bonus`: `self.bonuses[self.OCEAN_BONUS_ID]`
(`none` models the `KeyError`). -/
def EarthseaMap.ocean_bonus (m : EarthseaMap) : Option CBonus :=
  pyGet m.bonuses OCEAN_BONUS_ID

/-- `EarthseaMap.validate_ocean_bonus`.  Note the faithful embedding of
the Python expression
`{...keys} - base_territory_ids | self.ocean_bonus.territory_ids`:
`-` binds tighter than `|`, so `incomplete` is
`(territory keys \ base ids) ∪ ocean ids`. -/
def EarthseaMap.validate_ocean_bonus (m : EarthseaMap) :
    Option (Bool × List Diag) :=
  match m.ocean_bonus with
  | none => none
  | some ocb =>
    let base_territory_ids : Finset Int :=
      ((m.bonuses.filterMap
          (fun p => match p.2 with | .base b => some b | _ => none)).map
        (fun b => b.base_territory_id)).toFinset
    let overlap := base_territory_ids ∩ ocb.toBonus.territory_ids
    let tkeys : Finset Int := (m.territories.map Prod.fst).toFinset
    let incomplete := (tkeys \ base_territory_ids) ∪ ocb.toBonus.territory_ids
    let d1 : List Diag :=
      if overlap = ∅ then [] else [Diag.oceanOverlap overlap]
    let d2 : List Diag :=
      if incomplete = ∅ then [] else [Diag.oceanIncomplete incomplete]
    some (decide (overlap = ∅) && decide (incomplete = ∅), d1 ++ d2)

/-- `EarthseaMap.validate_base_bonus`: checks
`base_territory.connection_ids & ocean.territory_ids ==
base_bonus.sea_territory_ids`, then `correct & base_bonus.validate()`
(non-short-circuiting `&`).  `none` models a `KeyError` on the territory
or ocean lookup, or an exception out of `base_bonus.validate()`. -/
def EarthseaMap.validate_base_bonus (m : EarthseaMap) (b : BaseBonus) :
    Option (Bool × List Diag) :=
  match pyGet m.territories b.base_territory_id with
  | none => none
  | some t =>
    match m.ocean_bonus with
    | none => none
    | some ocb =>
      let expected := t.connection_ids ∩ ocb.toBonus.territory_ids
      let d : List Diag :=
        if expected = b.sea_territory_ids then [] else
          [Diag.seaMismatch b.name t.name]
      match b.validate with
      | none => none
      | some (v, dv) =>
        some (decide (expected = b.sea_territory_ids) && v, d ++ dv)

/-- The `for bonus in self.bonuses.values(): validates &= bonus.validate()`
loop of `EarthseaMap.validate`. -/
def validateBonusTable : List (Int × CBonus) → Option (Bool × List Diag)
  | [] => some (true, [])
  | (_, cb) :: rest =>
    match cb.validate, validateBonusTable rest with
    | some (v, d), some (vr, dr) => some (v && vr, d ++ dr)
    | _, _ => none

/-- `EarthseaMap.validate`: the ocean check, then every bonus's own
`validate()`.  (`validate_base_bonus` is not called from here.) -/
def EarthseaMap.validate (m : EarthseaMap) : Option (Bool × List Diag) :=
  match m.validate_ocean_bonus, validateBonusTable m.bonuses with
  | some (v0, d0), some (v, d) => some (v0 && v, d0 ++ d)
  | _, _ => none

/-- `Map.parse_territories_from_api`: key each territory by its id. -/
def parse_territories_from_api (ts : List Territory) : List (Int × Territory) :=
  pyDictOf Territory.territory_id ts

/-- `BaseBonus(**vars(bonus), base_territory_id=...)` with the default
(empty) `sub_bonuses` buckets. -/
def mkBaseBonus (b : Bonus) (home : Int) : BaseBonus :=
  ⟨b.bonus_id, b.name, b.value, b.territory_ids, home,
    initSubBuckets b.territory_ids.card⟩

/-- The first classification loop of `EarthseaMap.parse_map_from_api`: for
every bonus whose name has no `'~'` and that is not the ocean bonus
(object identity; equivalently, distinct `bonus_id`, since the values of
the id-keyed dict have pairwise-distinct ids), resolve
`territory_name_map[bonus.name]` (a failed lookup raises `KeyError`) and
put a fresh `BaseBonus` into the name-keyed dict. -/
def classifyBases (tmap : List (String × Territory)) (ocean : Bonus) :
    List (String × CBonus) → List Bonus → Except PyError (List (String × CBonus))
  | d, [] => .ok d
  | d, b :: rest =>
    if b.name.toList.contains '~' = false ∧ b.bonus_id ≠ ocean.bonus_id then
      match pyGet tmap b.name with
      | none => .error .keyError
      | some t =>
        classifyBases tmap ocean
          (pyDictInsert d b.name (.base (mkBaseBonus b t.territory_id))) rest
    else classifyBases tmap ocean d rest

/-- `base_bonus.sub_bonuses[sub_bonus_size].add(sub_bonus)`: `KeyError`
when the size is not a bucket key; adding a (fresh, identity-hashed)
object to the set appends it. -/
def addSubToBuckets (sz : Nat) (s : SubBonus)
    (bk : List (Nat × List SubBonus)) :
    Except PyError (List (Nat × List SubBonus)) :=
  if pyHasKey bk sz then
    .ok (bk.map (fun p => if p.1 = sz then (p.1, p.2 ++ [s]) else p))
  else .error .keyError

/-- The body of the second classification loop for one `'~'`-named bonus:
derive the base name, parse the size token, resolve the base bonus in the
name-keyed dict (`KeyError` when absent; `AttributeError` when the entry
is not a `BaseBonus`, since only those have `sub_bonuses`), and register
the new `SubBonus` into the size bucket. -/
def registerSub (d : List (String × CBonus)) (b : Bonus) :
    Except PyError (List (String × CBonus)) :=
  match parseSizeToken b.name with
  | .error e => .error e
  | .ok sz =>
    match pyGet d (get_base_bonus_name b.name) with
    | none => .error .keyError
    | some (.base bb) =>
      match addSubToBuckets sz
          ⟨b.bonus_id, b.name, b.value, b.territory_ids, bb.toBonus⟩
          bb.sub_bonuses with
      | .error e => .error e
      | .ok bk =>
        .ok (pyDictInsert d (get_base_bonus_name b.name)
              (.base ⟨bb.bonus_id, bb.name, bb.value, bb.territory_ids,
                      bb.base_territory_id, bk⟩))
    | some _ => .error .attributeError

/-- The second classification loop of `EarthseaMap.parse_map_from_api`:
register every bonus whose name contains `'~'` as a `SubBonus`. -/
def classifySubs (d : List (String × CBonus)) :
    List Bonus → Except PyError (List (String × CBonus))
  | [] => .ok d
  | b :: rest =>
    if b.name.toList.contains '~' then
      match registerSub d b with
      | .error e => .error e
      | .ok d2 => classifySubs d2 rest
    else classifySubs d rest

/-- The final `{bonus.bonus_id: bonus for bonus in bonuses.values()}`
re-keying step. -/
def rekeyById (d : List (String × CBonus)) : List (Int × CBonus) :=
  pyDictOf CBonus.bonus_id (d.map Prod.snd)

/-- `EarthseaMap.parse_map_from_api`: build the id-keyed dicts, look up the
ocean bonus (`KeyError` when id 1 is absent), run both classification
loops, and re-key by id. -/
def EarthseaMap.parse_map_from_api (mid : Int) (mname : String)
    (ts : List Territory) (bs : List Bonus) : Except PyError EarthseaMap :=
  match pyGet (pyDictOf Bonus.bonus_id bs) OCEAN_BONUS_ID with
  | none => .error .keyError
  | some ocean =>
    match classifyBases
        (pyDictOf Territory.name ((parse_territories_from_api ts).map Prod.snd))
        ocean [(ocean.name, .plain ocean)]
        ((pyDictOf Bonus.bonus_id bs).map Prod.snd) with
    | .error e => .error e
    | .ok d1 =>
      match classifySubs d1 ((pyDictOf Bonus.bonus_id bs).map Prod.snd) with
      | .error e => .error e
      | .ok d2 => .ok ⟨mid, mname, parse_territories_from_api ts, rekeyById d2⟩

/-- Re-flattening a classified bonus: the bonus's own id followed by the
ids of every `SubBonus` nested in its buckets. -/
def CBonus.flatIds : CBonus → List Int
  | .plain b => [b.bonus_id]
  | .sub s => [s.bonus_id]
  | .base b =>
    b.bonus_id :: b.sub_bonuses.flatMap (fun p => p.2.map (fun s => s.bonus_id))

/-- Re-flattening a classified map: every bonus in the bonus table together
with every nested sub-bonus. -/
def EarthseaMap.flatBonusIds (m : EarthseaMap) : List Int :=
  m.bonuses.flatMap (fun p => p.2.flatIds)

/-- Replace the `value` field when the classified bonus is a plain
`Bonus`; leave other variants untouched. -/
def CBonus.withValueIfPlain (cb : CBonus) (v : Int) : CBonus :=
  match cb with
  | .plain b => .plain ⟨b.bonus_id, b.name, v, b.territory_ids⟩
  | x => x

/-- The same map with the ocean bonus's `value` field replaced (when the
entry at `OCEAN_BONUS_ID` is a plain `Bonus`). -/
def EarthseaMap.withOceanValue (m : EarthseaMap) (v : Int) : EarthseaMap :=
  ⟨m.map_id, m.name, m.territories,
    m.bonuses.map (fun p =>
      (p.1, if p.1 = OCEAN_BONUS_ID then p.2.withValueIfPlain v else p.2))⟩

/-- A fully classified map on which every check that
`EarthseaMap.validate` actually runs passes, but whose base bonus claims
sea territory `30`, which does not border its home territory `10`
(`10`'s connections are `{20}` and the ocean is empty). -/
def C1sub : SubBonus := ⟨3, "~A 1x", 1, {10, 30}, ⟨2, "A", 0, {10, 30}⟩⟩

/-- The base bonus of `C1map`: home territory `10`, sea territory `30`. -/
def C1base : BaseBonus := ⟨2, "A", 0, {10, 30}, 10, [(2, [C1sub])]⟩

/-- See `C1sub`. -/
def C1map : EarthseaMap :=
  ⟨5, "M", [(10, ⟨10, "A", {20}⟩)],
   [(1, .plain ⟨1, "Ocean", 0, ∅⟩), (2, .base C1base)]⟩

/-- A correctly partitioned map: land (base home) territory `10`, sea
territory `20`, ocean `{20}`, all territories classified. -/
def C2map : EarthseaMap :=
  ⟨6, "M", [(10, ⟨10, "L", ∅⟩), (20, ⟨20, "S", ∅⟩)],
   [(1, .plain ⟨1, "Ocean", 0, {20}⟩),
    (2, .base ⟨2, "L", 0, {10, 20}, 10, [(2, [])]⟩)]⟩

/-- A sub-bonus named with trailing token `0x`. -/
def C3sub : SubBonus := ⟨3, "~A 0x", 1, {10}, ⟨2, "A", 0, {10}⟩⟩

/-- Whether a sub-bonus's parsed size lies in the reward-table domain
2..6, so that neither `intended_size` nor `intended_value` raises. -/
def SubBonus.sizeInDomain (s : SubBonus) : Bool :=
  match s.intended_size with
  | some k => decide (2 ≤ k) && decide (k ≤ 6)
  | none => false

/-- Whether every reward-table lookup reachable from a classified bonus's
`validate` is defined. -/
def cbInDomain : CBonus → Bool
  | .plain _ => true
  | .sub s => s.sizeInDomain
  | .base b =>
    (decide (2 ≤ b.territory_ids.card) && decide (b.territory_ids.card ≤ 6)) &&
    b.sub_bonuses.all (fun p => p.2.all SubBonus.sizeInDomain)

/-- The structural conditions under which `EarthseaMap.validate` can raise
no exception: the ocean id resolves, and every size reachable from the
bonus table lies in the reward-table domain. -/
def mapSizesInDomain (m : EarthseaMap) : Bool :=
  (pyGet m.bonuses OCEAN_BONUS_ID).isSome &&
  m.bonuses.all (fun p => cbInDomain p.2)

/-- The multiset of flattened bonus ids of a name-keyed classification
dict (every entry together with its nested sub-bonuses). -/
def dFlat (d : List (String × CBonus)) : List Int :=
  d.flatMap (fun p => p.2.flatIds)

/-- Territory list of the round-trip witness input. -/
def W4ts : List Territory := [⟨10, "A", {20}⟩]

/-- Bonus list of the round-trip witness input: the ocean, one base bonus
and one sub-bonus, with distinct ids and distinct `'~'`-free names. -/
def W4bs : List Bonus :=
  [⟨1, "Ocean", 0, ∅⟩, ⟨2, "A", 0, {10, 30}⟩, ⟨3, "~A 1x", 1, {10, 30}⟩]

/-- Territory list of the round-trip counterexample input. -/
def C4ts : List Territory := [⟨10, "A", ∅⟩]

/-- Bonus list of the round-trip counterexample input: two base bonuses
(ids 2 and 3) share the name `"A"`, so the name-keyed classification dict
keeps only the second. -/
def C4bs : List Bonus :=
  [⟨1, "Ocean", 0, ∅⟩, ⟨2, "A", 0, {10, 30}⟩, ⟨3, "A", 0, {10, 30}⟩]

/-- The condition of the first classification loop (a base-bonus record):
`'~' not in bonus.name and bonus != ocean_bonus`, the identity comparison
being equivalent to an id comparison among the values of the id-keyed
dict. -/
def isBaseRec (ocean : Bonus) (b : Bonus) : Bool :=
  decide (b.name.toList.contains '~' = false ∧ b.bonus_id ≠ ocean.bonus_id)


/-! ## Supporting lemmas -/

/-- `pyGet` commutes with an entry-wise, key-dependent value map. -/
theorem pyGet_map_entry {α β : Type} [DecidableEq α] (f : α → β → β) :
    ∀ (l : List (α × β)) (k : α),
      pyGet (l.map (fun p => (p.1, f p.1 p.2))) k = (pyGet l k).map (f k)
  | [], _ => rfl
  | p :: rest, k => by
    by_cases h : p.1 = k
    · subst h
      simp [pyGet]
    · simp [pyGet, h, pyGet_map_entry f rest k]

/-- Replacing a plain bonus's value does not change its `validate`
dispatch result (plain bonuses are not value-checked). -/
theorem withValueIfPlain_validate (cb : CBonus) (v : Int) :
    (cb.withValueIfPlain v).validate = cb.validate := by
  cases cb <;> rfl

/-- Replacing a plain bonus's value keeps its territory set. -/
theorem withValueIfPlain_territory_ids (cb : CBonus) (v : Int) :
    (cb.withValueIfPlain v).toBonus.territory_ids = cb.toBonus.territory_ids := by
  cases cb <;> rfl

/-- The `validates &= bonus.validate()` loop ignores the value of any
plain bonus. -/
theorem validateBonusTable_withOceanValue (v : Int) :
    ∀ l : List (Int × CBonus),
      validateBonusTable
        (l.map (fun p =>
          (p.1, if p.1 = OCEAN_BONUS_ID then p.2.withValueIfPlain v else p.2))) =
      validateBonusTable l
  | [] => rfl
  | p :: rest => by
    have ih := validateBonusTable_withOceanValue v rest
    by_cases h : p.1 = OCEAN_BONUS_ID <;>
      simp [validateBonusTable, h, ih, withValueIfPlain_validate]

/-- Extracting the `BaseBonus` entries ignores plain-bonus values. -/
theorem filterMap_base_withOceanValue (v : Int) :
    ∀ l : List (Int × CBonus),
      (l.map (fun p =>
          (p.1, if p.1 = OCEAN_BONUS_ID then p.2.withValueIfPlain v else p.2))).filterMap
          (fun p => match p.2 with | .base b => some b | _ => none) =
        l.filterMap (fun p => match p.2 with | .base b => some b | _ => none)
  | [] => rfl
  | p :: rest => by
    have ih := filterMap_base_withOceanValue v rest
    simp only [List.map_cons, List.filterMap_cons, ih]
    by_cases h : p.1 = OCEAN_BONUS_ID <;> cases hc : p.2 <;>
      simp [h, hc, CBonus.withValueIfPlain]

/-- The ocean-partition check ignores the ocean bonus's value. -/
theorem validate_ocean_bonus_withOceanValue (m : EarthseaMap) (v : Int) :
    (m.withOceanValue v).validate_ocean_bonus = m.validate_ocean_bonus := by
  have hb : (m.withOceanValue v).bonuses =
      m.bonuses.map (fun p => (p.1, (fun k cb =>
        if k = OCEAN_BONUS_ID then cb.withValueIfPlain v else cb) p.1 p.2)) := rfl
  have ht : (m.withOceanValue v).territories = m.territories := rfl
  unfold EarthseaMap.validate_ocean_bonus EarthseaMap.ocean_bonus
  rw [hb, ht, pyGet_map_entry (fun k cb =>
    if k = OCEAN_BONUS_ID then cb.withValueIfPlain v else cb) m.bonuses OCEAN_BONUS_ID]
  cases hoc : pyGet m.bonuses OCEAN_BONUS_ID with
  | none => rfl
  | some cb =>
    rw [show (fun p => (p.1, (fun k cb =>
          if k = OCEAN_BONUS_ID then cb.withValueIfPlain v else cb) p.1 p.2)) =
        (fun (p : Int × CBonus) =>
          (p.1, if p.1 = OCEAN_BONUS_ID then p.2.withValueIfPlain v else p.2)) from rfl]
    rw [filterMap_base_withOceanValue]
    simp [withValueIfPlain_territory_ids]

/-! ## Claim theorems (first group) -/

/-- C1 (code evaluated at the failing input): on `C1map`, whose base bonus
violates the sea-territory rule (`sea_territory_ids = {30}` but the sea
territories bordering home `10` are `∅`), `EarthseaMap.validate`
nevertheless returns `True` with no diagnostics, because it never invokes
`validate_base_bonus`; `validate_base_bonus` itself, called directly,
detects the violation, names the base bonus and its home territory, and
returns `False`. -/
theorem C1_sea_check_never_runs :
    EarthseaMap.validate C1map = some (true, []) ∧
    EarthseaMap.validate_base_bonus C1map C1base =
      some (false, [Diag.seaMismatch "A" "A"]) ∧
    C1base.sea_territory_ids ≠
      (Territory.connection_ids ⟨10, "A", {20}⟩) ∩
        (Bonus.territory_ids ⟨1, "Ocean", 0, ∅⟩) := by
  refine ⟨by decide, by decide, by decide⟩

/-- C2 (code evaluated at the failing input): `C2map` satisfies both R1
partition conditions (base home ids `{10}` and ocean ids `{20}` are
disjoint and cover the territory ids `{10, 20}`, so no territory is in
neither set), yet `validate_ocean_bonus` returns `False` and reports
territory `20` — an ocean territory — as being "in neither set", because
the code computes `(territories - base_ids) | ocean_ids` instead of
`territories - (base_ids | ocean_ids)`. -/
theorem C2_incomplete_precedence_bug :
    EarthseaMap.validate_ocean_bonus C2map =
      some (false, [Diag.oceanIncomplete {20}]) ∧
    ({10} : Finset Int) ∩ (Bonus.territory_ids ⟨1, "Ocean", 0, {20}⟩) = ∅ ∧
    ({10} : Finset Int) ∪ (Bonus.territory_ids ⟨1, "Ocean", 0, {20}⟩) =
      (C2map.territories.map Prod.fst).toFinset ∧
    (20 : Int) ∈ Bonus.territory_ids ⟨1, "Ocean", 0, {20}⟩ := by
  refine ⟨by decide, by decide, by decide, by decide⟩

/-- C3 counterexample: a name ending in `" 0x"` parses to size `1`, not
size `2` as the claim (leading digit plus 2) would require. -/
theorem C3_counterexample :
    get_sub_bonus_size "~Foo 0x" = some 1 ∧ (1 : Nat) ≠ 0 + 2 := by
  refine ⟨by decide, by decide⟩

/-- C3 amended: for every name whose final whitespace-delimited token
starts with a digit, both `get_sub_bonus_size` and `intended_size` parse
the size as that digit plus 1 (so `" 0x"` denotes size 1, `" 1x"` size 2,
and so on). -/
theorem C3_size_is_digit_plus_one (s : SubBonus) (c : Char) (rest : List Char)
    (h1 : (splitSpaces s.name.toList).getLastD [] = c :: rest)
    (h2 : c.isDigit = true) :
    get_sub_bonus_size s.name = some (c.toNat - 48 + 1) ∧
    s.intended_size = some (c.toNat - 48 + 1) := by
  have hp : parseSizeToken s.name = .ok (c.toNat - 48 + 1) := by
    unfold parseSizeToken
    rw [h1]
    simp [h2]
  refine ⟨?_, ?_⟩ <;>
    simp [get_sub_bonus_size, SubBonus.intended_size, hp, Except.toOption]

/-- C3 amended, witness: the concrete sub-bonus named `"~A 0x"` has
parsed size `0 + 1 = 1`. -/
theorem C3_size_is_digit_plus_one_witness :
    get_sub_bonus_size C3sub.name = some 1 ∧ C3sub.intended_size = some 1 :=
  C3_size_is_digit_plus_one C3sub '0' ['x'] (by decide) (by decide)

/-- C10: the per-bonus `validate` of a plain (neither base nor sub) bonus
— in particular the classified ocean bonus — returns `True` and emits no
diagnostic, and consequently the overall validation result of any
classified map is unchanged under arbitrary changes of the ocean bonus's
value. -/
theorem C10_ocean_value_never_checked :
    (∀ b : Bonus, Bonus.validate b = (true, [])) ∧
    (∀ (m : EarthseaMap) (v : Int),
      (m.withOceanValue v).validate = m.validate) := by
  refine ⟨fun b => rfl, fun m v => ?_⟩
  unfold EarthseaMap.validate
  rw [validate_ocean_bonus_withOceanValue]
  have hb : (m.withOceanValue v).bonuses =
      m.bonuses.map (fun p =>
        (p.1, if p.1 = OCEAN_BONUS_ID then p.2.withValueIfPlain v else p.2)) := rfl
  rw [hb, validateBonusTable_withOceanValue]

/-! ## SubBonus.validate characterization -/

/-- When both the size parse and the reward-table lookup succeed,
`SubBonus.validate` returns the conjunction of the three checks together
with the concatenation of their diagnostic lines. -/
theorem subValidate_eq (s : SubBonus) (isz : Nat) (iv : Int)
    (hs : s.intended_size = some isz) (hv : s.intended_value = some iv) :
    s.validate = some
      (decide (s.territory_ids.card = isz) && decide (s.value = iv) &&
        decide (s.territory_ids \ s.base_bonus.territory_ids = ∅),
       (if s.territory_ids.card = isz then [] else
         [Diag.wrongSize s.name isz s.territory_ids.card]) ++
       (if s.value = iv then [] else [Diag.wrongValue s.name iv s.value]) ++
       (if s.territory_ids \ s.base_bonus.territory_ids = ∅ then [] else
         [Diag.notSubset s.name s.base_bonus.name])) := by
  unfold SubBonus.validate
  rw [hs, hv]

/-- Both sub-bonus reward tables are defined on sizes 2..6. -/
theorem sub_tables_isSome (k : Nat) (h2 : 2 ≤ k) (h6 : k ≤ 6) :
    (SubBonus.INTENDED_VALUE_BY_SIZE k).isSome = true ∧
    (SubBonus.INTENDED_VALUE_BY_SIZE_FULL k).isSome = true := by
  interval_cases k <;> exact ⟨rfl, rfl⟩

/-- The base-bonus reward table is defined on sizes 2..6. -/
theorem base_table_isSome (k : Nat) (h2 : 2 ≤ k) (h6 : k ≤ 6) :
    (BaseBonus.INTENDED_VALUE_BY_SIZE k).isSome = true := by
  interval_cases k <;> rfl

/-- `intended_value` unfolded at a known `intended_size`. -/
theorem intended_value_eq (s : SubBonus) (k : Nat)
    (hs : s.intended_size = some k) :
    s.intended_value =
      (if s.territory_ids.card = s.base_bonus.territory_ids.card
       then SubBonus.INTENDED_VALUE_BY_SIZE_FULL k
       else SubBonus.INTENDED_VALUE_BY_SIZE k) := by
  unfold SubBonus.intended_value
  rw [hs]

/-- Every diagnostic emitted by `SubBonus.validate` is one of the three
sub-bonus checks, naming that sub-bonus. -/
theorem subValidate_mem (s : SubBonus) (v : Bool) (d : List Diag)
    (h : s.validate = some (v, d)) (x : Diag) (hx : x ∈ d) :
    (∃ i a, x = Diag.wrongSize s.name i a) ∨
    (∃ e a, x = Diag.wrongValue s.name e a) ∨
    x = Diag.notSubset s.name s.base_bonus.name := by
  unfold SubBonus.validate at h
  cases hs : s.intended_size with
  | none => rw [hs] at h; exact absurd h (by simp)
  | some isz =>
    rw [hs] at h
    cases hv : s.intended_value with
    | none => rw [hv] at h; exact absurd h (by simp)
    | some iv =>
      rw [hv] at h
      rw [Option.some_inj, Prod.mk.injEq] at h
      obtain ⟨hv2, hd⟩ := h
      subst hd
      have h1 : ∀ y ∈ (if s.territory_ids.card = isz then ([] : List Diag)
          else [Diag.wrongSize s.name isz s.territory_ids.card]),
          y = Diag.wrongSize s.name isz s.territory_ids.card := by
        split <;> simp
      have h2 : ∀ y ∈ (if s.value = iv then ([] : List Diag)
          else [Diag.wrongValue s.name iv s.value]),
          y = Diag.wrongValue s.name iv s.value := by
        split <;> simp
      have h3 : ∀ y ∈ (if s.territory_ids \ s.base_bonus.territory_ids = ∅
          then ([] : List Diag)
          else [Diag.notSubset s.name s.base_bonus.name]),
          y = Diag.notSubset s.name s.base_bonus.name := by
        split <;> simp
      rcases List.mem_append.mp hx with hxab | hxc
      · rcases List.mem_append.mp hxab with hxa | hxb
        · exact Or.inl ⟨_, _, h1 x hxa⟩
        · exact Or.inr (Or.inl ⟨_, _, h2 x hxb⟩)
      · exact Or.inr (Or.inr (h3 x hxc))

/-- Every diagnostic emitted by the sub-bonus loop names some sub-bonus in
the bucket and is one of the three sub-bonus checks. -/
theorem validateSubs_mem :
    ∀ (subs : List SubBonus) (v : Bool) (d : List Diag),
      validateSubs subs = some (v, d) → ∀ x ∈ d,
        ∃ s, s ∈ subs ∧
          ((∃ i a, x = Diag.wrongSize s.name i a) ∨
           (∃ e a, x = Diag.wrongValue s.name e a) ∨
           x = Diag.notSubset s.name s.base_bonus.name)
  | [], v, d, h, x, hx => by
    unfold validateSubs at h
    rw [Option.some_inj, Prod.mk.injEq] at h
    obtain ⟨h1, h2⟩ := h
    subst h2
    exact absurd hx (by simp)
  | s :: rest, v, d, h, x, hx => by
    unfold validateSubs at h
    cases hs : s.validate with
    | none => rw [hs] at h; exact absurd h (by simp)
    | some p1 =>
      cases hr : validateSubs rest with
      | none => rw [hs, hr] at h; exact absurd h (by simp)
      | some p2 =>
        obtain ⟨v1, d1⟩ := p1
        obtain ⟨v2, d2⟩ := p2
        rw [hs, hr, Option.some_inj, Prod.mk.injEq] at h
        obtain ⟨h1, h2⟩ := h
        subst h2
        rcases List.mem_append.mp hx with hx1 | hx2
        · exact ⟨s, List.mem_cons_self s rest, subValidate_mem s v1 d1 hs x hx1⟩
        · obtain ⟨s2, hs2, hshape⟩ := validateSubs_mem rest v2 d2 hr x hx2
          exact ⟨s2, List.mem_cons_of_mem s hs2, hshape⟩

/-- The partial and full sub-bonus reward tables, with their entries
spelled out, on the supported domain 2..6. -/
theorem sub_table_eq (c : Nat) (h2 : 2 ≤ c) (h6 : c ≤ 6) :
    SubBonus.INTENDED_VALUE_BY_SIZE c =
      some (if c = 2 then (1 : Int) else if c = 3 then -1 else if c = 4 then 2
            else if c = 5 then -4 else 8) ∧
    SubBonus.INTENDED_VALUE_BY_SIZE_FULL c =
      some (if c = 2 then (1 : Int) else if c = 3 then -2 else if c = 4 then 0
            else if c = 5 then -6 else 5) := by
  interval_cases c <;> exact ⟨rfl, rfl⟩

/-- The base-bonus reward table, with its entries spelled out, on the
supported domain 2..6. -/
theorem base_table_eq (c : Nat) (h2 : 2 ≤ c) (h6 : c ≤ 6) :
    BaseBonus.INTENDED_VALUE_BY_SIZE c =
      some (if c = 2 then (0 : Int) else if c = 3 then 1 else if c = 4 then 2
            else if c = 5 then 2 else 3) := by
  interval_cases c <;> rfl

/-- C8: for every sub-bonus whose parsed size is in the reward-table
domain, `validate` evaluates all three checks — territory count equals
`intended_size`, value equals `intended_value`, member set a subset of the
base bonus's set — emits one diagnostic per failed check (accumulating,
not stopping at the first failure), and returns `True` exactly when all
three hold. -/
theorem C8_subbonus_checks_accumulate (s : SubBonus) (k : Nat)
    (hs : s.intended_size = some k) (h2 : 2 ≤ k) (h6 : k ≤ 6) :
    ∃ iv v d, s.intended_value = some iv ∧ s.validate = some (v, d) ∧
      (v = true ↔ (s.territory_ids.card = k ∧ s.value = iv ∧
        s.territory_ids ⊆ s.base_bonus.territory_ids)) ∧
      ((∃ i a, Diag.wrongSize s.name i a ∈ d) ↔ s.territory_ids.card ≠ k) ∧
      ((∃ e a, Diag.wrongValue s.name e a ∈ d) ↔ s.value ≠ iv) ∧
      (Diag.notSubset s.name s.base_bonus.name ∈ d ↔
        ¬ s.territory_ids ⊆ s.base_bonus.territory_ids) := by
  have hiv : ∃ iv, s.intended_value = some iv := by
    rw [intended_value_eq s k hs]
    by_cases hc : s.territory_ids.card = s.base_bonus.territory_ids.card
    · rw [if_pos hc]
      exact ⟨_, (sub_table_eq k h2 h6).2⟩
    · rw [if_neg hc]
      exact ⟨_, (sub_table_eq k h2 h6).1⟩
  obtain ⟨iv, hiv⟩ := hiv
  refine ⟨iv, _, _, hiv, subValidate_eq s k iv hs hiv, ?_, ?_, ?_, ?_⟩
  · simp [Finset.sdiff_eq_empty_iff_subset, and_assoc]
  · by_cases c1 : s.territory_ids.card = k <;>
    by_cases c2 : s.value = iv <;>
    by_cases c3 : s.territory_ids \ s.base_bonus.territory_ids = ∅ <;>
      simp [c1, c2, c3, Finset.sdiff_eq_empty_iff_subset]
  · by_cases c1 : s.territory_ids.card = k <;>
    by_cases c2 : s.value = iv <;>
    by_cases c3 : s.territory_ids \ s.base_bonus.territory_ids = ∅ <;>
      simp [c1, c2, c3, Finset.sdiff_eq_empty_iff_subset]
  · by_cases c1 : s.territory_ids.card = k <;>
    by_cases c2 : s.value = iv <;>
    by_cases c3 : s.territory_ids \ s.base_bonus.territory_ids = ∅ <;>
      simp [c1, c2, c3, Finset.sdiff_eq_empty_iff_subset] <;>
      first
      | exact Finset.sdiff_eq_empty_iff_subset.mp c3
      | exact fun hsub => c3 (Finset.sdiff_eq_empty_iff_subset.mpr hsub)

/-- C8 witness: the concrete sub-bonus `C1sub` (size token `1x`, so
parsed size 2) has an intended value and a fully evaluated `validate`. -/
theorem C8_subbonus_checks_accumulate_witness :
    ∃ iv v d, C1sub.intended_value = some iv ∧ C1sub.validate = some (v, d) ∧
      (v = true ↔ (C1sub.territory_ids.card = 2 ∧ C1sub.value = iv ∧
        C1sub.territory_ids ⊆ C1sub.base_bonus.territory_ids)) ∧
      ((∃ i a, Diag.wrongSize C1sub.name i a ∈ d) ↔ C1sub.territory_ids.card ≠ 2) ∧
      ((∃ e a, Diag.wrongValue C1sub.name e a ∈ d) ↔ C1sub.value ≠ iv) ∧
      (Diag.notSubset C1sub.name C1sub.base_bonus.name ∈ d ↔
        ¬ C1sub.territory_ids ⊆ C1sub.base_bonus.territory_ids) :=
  C8_subbonus_checks_accumulate C1sub 2 (by decide) (by decide) (by decide)

/-- Inversion for one step of the per-size-bucket loop. -/
theorem validateBuckets_cons (bname : String) (n k : Nat)
    (subs : List SubBonus) (rest : List (Nat × List SubBonus))
    (v : Bool) (d : List Diag)
    (h : validateBuckets bname n ((k, subs) :: rest) = some (v, d)) :
    ∃ vs ds vr dr, validateSubs subs = some (vs, ds) ∧
      validateBuckets bname n rest = some (vr, dr) ∧
      v = ((decide (subs.length = Nat.choose (n - 1) (k - 1)) &&
              decide (((subs.map (fun s => s.territory_ids)).dedup).length =
                subs.length) && vs) && vr) ∧
      d = (if subs.length = Nat.choose (n - 1) (k - 1) then [] else
             [Diag.wrongSubBonusCount bname (Nat.choose n k) k subs.length]) ++
          (if ((subs.map (fun s => s.territory_ids)).dedup).length = subs.length
           then [] else [Diag.notDistinct bname k]) ++ ds ++ dr := by
  cases hsub : validateSubs subs with
  | none =>
    rw [show validateBuckets bname n ((k, subs) :: rest) =
        (match validateSubs subs, validateBuckets bname n rest with
         | some (vs, ds), some (vr, dr) =>
           some ((decide (subs.length = Nat.choose (n - 1) (k - 1)) &&
                    decide (((subs.map (fun s => s.territory_ids)).dedup).length =
                      subs.length) && vs) && vr,
                 (if subs.length = Nat.choose (n - 1) (k - 1) then [] else
                    [Diag.wrongSubBonusCount bname (Nat.choose n k) k subs.length]) ++
                 (if ((subs.map (fun s => s.territory_ids)).dedup).length = subs.length
                  then [] else [Diag.notDistinct bname k]) ++ ds ++ dr)
         | _, _ => none) from rfl, hsub] at h
    exact absurd h (by simp)
  | some ps =>
    cases hrest : validateBuckets bname n rest with
    | none =>
      rw [show validateBuckets bname n ((k, subs) :: rest) =
          (match validateSubs subs, validateBuckets bname n rest with
           | some (vs, ds), some (vr, dr) =>
             some ((decide (subs.length = Nat.choose (n - 1) (k - 1)) &&
                      decide (((subs.map (fun s => s.territory_ids)).dedup).length =
                        subs.length) && vs) && vr,
                   (if subs.length = Nat.choose (n - 1) (k - 1) then [] else
                      [Diag.wrongSubBonusCount bname (Nat.choose n k) k subs.length]) ++
                   (if ((subs.map (fun s => s.territory_ids)).dedup).length = subs.length
                    then [] else [Diag.notDistinct bname k]) ++ ds ++ dr)
           | _, _ => none) from rfl, hsub, hrest] at h
      obtain ⟨vs, ds⟩ := ps
      exact absurd h (by simp)
    | some pr =>
      obtain ⟨vs, ds⟩ := ps
      obtain ⟨vr, dr⟩ := pr
      rw [show validateBuckets bname n ((k, subs) :: rest) =
          (match validateSubs subs, validateBuckets bname n rest with
           | some (vs, ds), some (vr, dr) =>
             some ((decide (subs.length = Nat.choose (n - 1) (k - 1)) &&
                      decide (((subs.map (fun s => s.territory_ids)).dedup).length =
                        subs.length) && vs) && vr,
                   (if subs.length = Nat.choose (n - 1) (k - 1) then [] else
                      [Diag.wrongSubBonusCount bname (Nat.choose n k) k subs.length]) ++
                   (if ((subs.map (fun s => s.territory_ids)).dedup).length = subs.length
                    then [] else [Diag.notDistinct bname k]) ++ ds ++ dr)
           | _, _ => none) from rfl, hsub, hrest] at h
      rw [Option.some_inj, Prod.mk.injEq] at h
      exact ⟨vs, ds, vr, dr, rfl, rfl, h.1.symm, h.2.symm⟩

/-- Inversion for `BaseBonus.validate`. -/
theorem baseValidate_inv (b : BaseBonus) (v : Bool) (d : List Diag)
    (h : b.validate = some (v, d)) :
    ∃ iv vb db,
      BaseBonus.INTENDED_VALUE_BY_SIZE b.territory_ids.card = some iv ∧
      validateBuckets b.name b.territory_ids.card b.sub_bonuses = some (vb, db) ∧
      v = (decide (b.value = iv) && vb) ∧
      d = (if b.value = iv then [] else [Diag.wrongValue b.name iv b.value]) ++ db := by
  unfold BaseBonus.validate at h
  cases ht : BaseBonus.INTENDED_VALUE_BY_SIZE b.territory_ids.card with
  | none => rw [ht] at h; exact absurd h (by simp)
  | some iv =>
    rw [ht] at h
    cases hb : validateBuckets b.name b.territory_ids.card b.sub_bonuses with
    | none => rw [hb] at h; exact absurd h (by simp)
    | some p =>
      obtain ⟨vb, db⟩ := p
      rw [hb, Option.some_inj, Prod.mk.injEq] at h
      exact ⟨iv, vb, db, rfl, rfl, h.1.symm, h.2.symm⟩

/-- Every `wrongValue` diagnostic emitted by the bucket loop names one of
the nested sub-bonuses. -/
theorem validateBuckets_wrongValue_name :
    ∀ (entries : List (Nat × List SubBonus)) (bname : String) (n : Nat)
      (v : Bool) (d : List Diag),
      validateBuckets bname n entries = some (v, d) →
      ∀ nm e a, Diag.wrongValue nm e a ∈ d →
        ∃ p, p ∈ entries ∧ ∃ s, s ∈ p.2 ∧ nm = s.name
  | [], bname, n, v, d, h, nm, e, a, hx => by
    unfold validateBuckets at h
    rw [Option.some_inj, Prod.mk.injEq] at h
    obtain ⟨h1, h2⟩ := h
    subst h2
    exact absurd hx (by simp)
  | (k, subs) :: rest, bname, n, v, d, h, nm, e, a, hx => by
    obtain ⟨vs, ds, vr, dr, hsub, hrest, hv, hd⟩ :=
      validateBuckets_cons bname n k subs rest v d h
    subst hd
    have hc1 : ∀ y ∈ (if subs.length = Nat.choose (n - 1) (k - 1)
        then ([] : List Diag)
        else [Diag.wrongSubBonusCount bname (Nat.choose n k) k subs.length]),
        y = Diag.wrongSubBonusCount bname (Nat.choose n k) k subs.length := by
      split <;> simp
    have hc2 : ∀ y ∈ (if ((subs.map (fun s => s.territory_ids)).dedup).length =
          subs.length then ([] : List Diag) else [Diag.notDistinct bname k]),
        y = Diag.notDistinct bname k := by
      split <;> simp
    rcases List.mem_append.mp hx with hx123 | hx4
    · rcases List.mem_append.mp hx123 with hx12 | hx3
      · rcases List.mem_append.mp hx12 with hx1 | hx2
        · exact absurd (hc1 _ hx1) (by simp)
        · exact absurd (hc2 _ hx2) (by simp)
      · obtain ⟨s, hsmem, hshape⟩ := validateSubs_mem subs vs ds hsub _ hx3
        rcases hshape with ⟨i, a2, heq⟩ | ⟨e2, a2, heq⟩ | heq
        · exact absurd heq (by simp)
        · rw [Diag.wrongValue.injEq] at heq
          exact ⟨(k, subs), List.mem_cons_self _ _, s, hsmem, heq.1⟩
        · exact absurd heq (by simp)
    · obtain ⟨p, hp, s, hsmem, hnm⟩ :=
        validateBuckets_wrongValue_name rest bname n vr dr hrest nm e a hx4
      exact ⟨p, List.mem_cons_of_mem _ hp, s, hsmem, hnm⟩

/-- C7: for sub-bonuses with `intended_size` in 2..6, `intended_value` is
taken from the full table {2:1, 3:-2, 4:0, 5:-6, 6:5} when the sub-bonus
has as many territories as its base bonus and from the partial table
{2:1, 3:-1, 4:2, 5:-4, 6:8} otherwise, keyed by `intended_size`; a value
violation is reported exactly when `value` differs from that intended
value.  For base bonuses of size 2..6, a value violation is reported
exactly when `value` differs from {2:0, 3:1, 4:2, 5:2, 6:3} at the size. -/
theorem C7_reward_tables :
    (∀ (s : SubBonus) (k : Nat), s.intended_size = some k → 2 ≤ k → k ≤ 6 →
      ∃ iv, s.intended_value = some iv ∧
        iv = (if s.territory_ids.card = s.base_bonus.territory_ids.card
              then (if k = 2 then (1 : Int) else if k = 3 then -2
                    else if k = 4 then 0 else if k = 5 then -6 else 5)
              else (if k = 2 then (1 : Int) else if k = 3 then -1
                    else if k = 4 then 2 else if k = 5 then -4 else 8)) ∧
        ∀ v d, s.validate = some (v, d) →
          ((∃ e a, Diag.wrongValue s.name e a ∈ d) ↔ s.value ≠ iv)) ∧
    (∀ b : BaseBonus, 2 ≤ b.territory_ids.card → b.territory_ids.card ≤ 6 →
      (∀ p ∈ b.sub_bonuses, ∀ s2 ∈ p.2, SubBonus.name s2 ≠ b.name) →
      ∀ v d, b.validate = some (v, d) →
        ((∃ e a, Diag.wrongValue b.name e a ∈ d) ↔
          b.value ≠ (if b.territory_ids.card = 2 then (0 : Int)
                     else if b.territory_ids.card = 3 then 1
                     else if b.territory_ids.card = 4 then 2
                     else if b.territory_ids.card = 5 then 2 else 3))) := by
  constructor
  · intro s k hs h2 h6
    obtain ⟨hpart, hfull⟩ := sub_table_eq k h2 h6
    have hiv : s.intended_value =
        some (if s.territory_ids.card = s.base_bonus.territory_ids.card
              then (if k = 2 then (1 : Int) else if k = 3 then -2
                    else if k = 4 then 0 else if k = 5 then -6 else 5)
              else (if k = 2 then (1 : Int) else if k = 3 then -1
                    else if k = 4 then 2 else if k = 5 then -4 else 8)) := by
      rw [intended_value_eq s k hs]
      by_cases hc : s.territory_ids.card = s.base_bonus.territory_ids.card
      · rw [if_pos hc, if_pos hc, hfull]
      · rw [if_neg hc, if_neg hc, hpart]
    refine ⟨_, hiv, rfl, ?_⟩
    intro v d hval
    rw [subValidate_eq s k _ hs hiv, Option.some_inj, Prod.mk.injEq] at hval
    obtain ⟨hv1, hd⟩ := hval
    subst hd
    by_cases c1 : s.territory_ids.card = k <;>
    by_cases c2 : s.value =
      (if s.territory_ids.card = s.base_bonus.territory_ids.card
       then (if k = 2 then (1 : Int) else if k = 3 then -2
             else if k = 4 then 0 else if k = 5 then -6 else 5)
       else (if k = 2 then (1 : Int) else if k = 3 then -1
             else if k = 4 then 2 else if k = 5 then -4 else 8)) <;>
    by_cases c3 : s.territory_ids \ s.base_bonus.territory_ids = ∅ <;>
      simp [c1, c2, c3]
  · intro b h2 h6 hnames v d hok
    obtain ⟨iv, vb, db, ht, hb, hv, hd⟩ := baseValidate_inv b v d hok
    have hiv : iv = (if b.territory_ids.card = 2 then (0 : Int)
        else if b.territory_ids.card = 3 then 1
        else if b.territory_ids.card = 4 then 2
        else if b.territory_ids.card = 5 then 2 else 3) := by
      have he := base_table_eq b.territory_ids.card h2 h6
      rw [ht] at he
      exact Option.some_inj.mp he
    subst hd
    rw [← hiv]
    constructor
    · rintro ⟨e, a, hmem⟩
      rcases List.mem_append.mp hmem with hx0 | hx1
      · by_cases c0 : b.value = iv
        · rw [if_pos c0] at hx0
          exact absurd hx0 (List.not_mem_nil _)
        · exact c0
      · obtain ⟨p, hp, s2, hs2, hnm⟩ :=
          validateBuckets_wrongValue_name _ _ _ _ _ hb _ e a hx1
        exact absurd hnm.symm (hnames p hp s2 hs2)
    · intro hne
      exact ⟨iv, b.value, List.mem_append_left _
        (by rw [if_neg hne]; exact List.mem_singleton_self _)⟩

/-- C7 witness: the concrete sub-bonus `C1sub` (full sub-bonus of size 2,
intended value 1) and base bonus `C1base` (size 2, intended value 0). -/
theorem C7_reward_tables_witness :
    (∃ iv, C1sub.intended_value = some iv ∧ iv = 1 ∧
      ∀ v d, C1sub.validate = some (v, d) →
        ((∃ e a, Diag.wrongValue C1sub.name e a ∈ d) ↔ C1sub.value ≠ iv)) ∧
    (∀ v d, C1base.validate = some (v, d) →
      ((∃ e a, Diag.wrongValue C1base.name e a ∈ d) ↔ C1base.value ≠ 0)) :=
  ⟨C7_reward_tables.1 C1sub 2 (by decide) (by decide) (by decide),
   C7_reward_tables.2 C1base (by decide) (by decide) (by decide)⟩

/-- The sub-bonus loop never emits a count or distinctness diagnostic. -/
theorem validateSubs_no_bucket_diag (subs : List SubBonus) (v : Bool)
    (d : List Diag) (h : validateSubs subs = some (v, d)) :
    (∀ bn e k a, Diag.wrongSubBonusCount bn e k a ∉ d) ∧
    (∀ bn k, Diag.notDistinct bn k ∉ d) := by
  constructor
  · intro bn e k a hmem
    obtain ⟨s, hsmem, hsh⟩ := validateSubs_mem subs v d h _ hmem
    rcases hsh with ⟨i, a2, heq⟩ | ⟨e2, a2, heq⟩ | heq <;> exact absurd heq (by simp)
  · intro bn k hmem
    obtain ⟨s, hsmem, hsh⟩ := validateSubs_mem subs v d h _ hmem
    rcases hsh with ⟨i, a2, heq⟩ | ⟨e2, a2, heq⟩ | heq <;> exact absurd heq (by simp)

/-- A count diagnostic emitted by the bucket loop carries a size that is
one of the bucket keys. -/
theorem validateBuckets_count_key :
    ∀ (entries : List (Nat × List SubBonus)) (bname : String) (n : Nat)
      (v : Bool) (d : List Diag),
      validateBuckets bname n entries = some (v, d) →
      ∀ bn e k a, Diag.wrongSubBonusCount bn e k a ∈ d →
        k ∈ entries.map Prod.fst
  | [], bname, n, v, d, h, bn, e, k, a, hx => by
    unfold validateBuckets at h
    rw [Option.some_inj, Prod.mk.injEq] at h
    obtain ⟨h1, h2⟩ := h
    subst h2
    exact absurd hx (by simp)
  | (k0, subs0) :: rest, bname, n, v, d, h, bn, e, k, a, hx => by
    obtain ⟨vs, ds, vr, dr, hsub, hrest, hv, hd⟩ :=
      validateBuckets_cons bname n k0 subs0 rest v d h
    subst hd
    rcases List.mem_append.mp hx with hx123 | hx4
    · rcases List.mem_append.mp hx123 with hx12 | hx3
      · rcases List.mem_append.mp hx12 with hx1 | hx2
        · have : Diag.wrongSubBonusCount bn e k a =
              Diag.wrongSubBonusCount bname (Nat.choose n k0) k0 subs0.length := by
            revert hx1
            split <;> simp
          rw [Diag.wrongSubBonusCount.injEq] at this
          simp [this.2.2.1]
        · have : Diag.wrongSubBonusCount bn e k a = Diag.notDistinct bname k0 := by
            revert hx2
            split <;> simp
          exact absurd this (by simp)
      · exact absurd hx3 ((validateSubs_no_bucket_diag subs0 vs ds hsub).1 bn e k a)
    · exact List.mem_cons_of_mem _
        (validateBuckets_count_key rest bname n vr dr hrest bn e k a hx4)

/-- A distinctness diagnostic emitted by the bucket loop carries a size
that is one of the bucket keys. -/
theorem validateBuckets_distinct_key :
    ∀ (entries : List (Nat × List SubBonus)) (bname : String) (n : Nat)
      (v : Bool) (d : List Diag),
      validateBuckets bname n entries = some (v, d) →
      ∀ bn k, Diag.notDistinct bn k ∈ d → k ∈ entries.map Prod.fst
  | [], bname, n, v, d, h, bn, k, hx => by
    unfold validateBuckets at h
    rw [Option.some_inj, Prod.mk.injEq] at h
    obtain ⟨h1, h2⟩ := h
    subst h2
    exact absurd hx (by simp)
  | (k0, subs0) :: rest, bname, n, v, d, h, bn, k, hx => by
    obtain ⟨vs, ds, vr, dr, hsub, hrest, hv, hd⟩ :=
      validateBuckets_cons bname n k0 subs0 rest v d h
    subst hd
    rcases List.mem_append.mp hx with hx123 | hx4
    · rcases List.mem_append.mp hx123 with hx12 | hx3
      · rcases List.mem_append.mp hx12 with hx1 | hx2
        · have : Diag.notDistinct bn k =
              Diag.wrongSubBonusCount bname (Nat.choose n k0) k0 subs0.length := by
            revert hx1
            split <;> simp
          exact absurd this (by simp)
        · have : Diag.notDistinct bn k = Diag.notDistinct bname k0 := by
            revert hx2
            split <;> simp
          rw [Diag.notDistinct.injEq] at this
          simp [this.2]
      · exact absurd hx3 ((validateSubs_no_bucket_diag subs0 vs ds hsub).2 bn k)
    · exact List.mem_cons_of_mem _
        (validateBuckets_distinct_key rest bname n vr dr hrest bn k hx4)

/-- `l.dedup.length = l.length` exactly when `l` has no duplicates. -/
theorem dedup_length_iff {α : Type} [DecidableEq α] (l : List α) :
    l.dedup.length = l.length ↔ l.Nodup := by
  constructor
  · intro h
    rw [← List.dedup_eq_self]
    exact (List.dedup_sublist l).eq_of_length h
  · intro h
    rw [List.dedup_eq_self.mpr h]

/-- Per-entry characterization of the count check inside the bucket loop:
with pairwise-distinct bucket keys, a count diagnostic for size `k` is
emitted exactly when that size's bucket has the wrong number of
sub-bonuses. -/
theorem validateBuckets_count_iff :
    ∀ (entries : List (Nat × List SubBonus)) (bname : String) (n : Nat)
      (v : Bool) (d : List Diag),
      validateBuckets bname n entries = some (v, d) →
      (entries.map Prod.fst).Nodup →
      ∀ k subs, (k, subs) ∈ entries →
        ((∃ e a, Diag.wrongSubBonusCount bname e k a ∈ d) ↔
          subs.length ≠ Nat.choose (n - 1) (k - 1))
  | [], bname, n, v, d, h, hnd, k, subs, hmem => absurd hmem (by simp)
  | (k0, subs0) :: rest, bname, n, v, d, h, hnd, k, subs, hmem => by
    obtain ⟨vs, ds, vr, dr, hsub, hrest, hv, hd⟩ :=
      validateBuckets_cons bname n k0 subs0 rest v d h
    subst hd
    have hk0notin : k0 ∉ rest.map Prod.fst := (List.nodup_cons.mp hnd).1
    rcases List.mem_cons.mp hmem with heq | htail
    · rw [Prod.mk.injEq] at heq
      obtain ⟨hk, hsubs⟩ := heq
      subst hk
      subst hsubs
      constructor
      · rintro ⟨e, a, hx⟩
        rcases List.mem_append.mp hx with hx123 | hx4
        · rcases List.mem_append.mp hx123 with hx12 | hx3
          · rcases List.mem_append.mp hx12 with hx1 | hx2
            · by_cases c : subs.length = Nat.choose (n - 1) (k - 1)
              · rw [if_pos c] at hx1
                exact absurd hx1 (List.not_mem_nil _)
              · exact c
            · have : Diag.wrongSubBonusCount bname e k a =
                  Diag.notDistinct bname k := by
                revert hx2
                split <;> simp
              exact absurd this (by simp)
          · exact absurd hx3
              ((validateSubs_no_bucket_diag subs vs ds hsub).1 bname e k a)
        · exact absurd
            (validateBuckets_count_key rest bname n vr dr hrest bname e k a hx4)
            hk0notin
      · intro hne
        refine ⟨Nat.choose n k, subs.length,
          List.mem_append_left _ (List.mem_append_left _
            (List.mem_append_left _ ?_))⟩
        rw [if_neg hne]
        exact List.mem_singleton_self _
    · have hknot : k ≠ k0 := by
        intro hkk
        subst hkk
        exact hk0notin (List.mem_map.mpr ⟨(k, subs), htail, rfl⟩)
      have ih := validateBuckets_count_iff rest bname n vr dr hrest
        (List.nodup_cons.mp hnd).2 k subs htail
      constructor
      · rintro ⟨e, a, hx⟩
        rcases List.mem_append.mp hx with hx123 | hx4
        · rcases List.mem_append.mp hx123 with hx12 | hx3
          · rcases List.mem_append.mp hx12 with hx1 | hx2
            · have : Diag.wrongSubBonusCount bname e k a =
                  Diag.wrongSubBonusCount bname (Nat.choose n k0) k0 subs0.length := by
                revert hx1
                split <;> simp
              rw [Diag.wrongSubBonusCount.injEq] at this
              exact absurd this.2.2.1 hknot
            · have : Diag.wrongSubBonusCount bname e k a =
                  Diag.notDistinct bname k0 := by
                revert hx2
                split <;> simp
              exact absurd this (by simp)
          · exact absurd hx3
              ((validateSubs_no_bucket_diag subs0 vs ds hsub).1 bname e k a)
        · exact ih.mp ⟨e, a, hx4⟩
      · intro hne
        obtain ⟨e, a, hx⟩ := ih.mpr hne
        exact ⟨e, a, List.mem_append_right _ hx⟩

/-- Per-entry characterization of the distinctness check inside the bucket
loop. -/
theorem validateBuckets_distinct_iff :
    ∀ (entries : List (Nat × List SubBonus)) (bname : String) (n : Nat)
      (v : Bool) (d : List Diag),
      validateBuckets bname n entries = some (v, d) →
      (entries.map Prod.fst).Nodup →
      ∀ k subs, (k, subs) ∈ entries →
        (Diag.notDistinct bname k ∈ d ↔
          ¬ (subs.map (fun s => s.territory_ids)).Nodup)
  | [], bname, n, v, d, h, hnd, k, subs, hmem => absurd hmem (by simp)
  | (k0, subs0) :: rest, bname, n, v, d, h, hnd, k, subs, hmem => by
    obtain ⟨vs, ds, vr, dr, hsub, hrest, hv, hd⟩ :=
      validateBuckets_cons bname n k0 subs0 rest v d h
    subst hd
    have hk0notin : k0 ∉ rest.map Prod.fst := (List.nodup_cons.mp hnd).1
    rcases List.mem_cons.mp hmem with heq | htail
    · rw [Prod.mk.injEq] at heq
      obtain ⟨hk, hsubs⟩ := heq
      subst hk
      subst hsubs
      constructor
      · intro hx
        rcases List.mem_append.mp hx with hx123 | hx4
        · rcases List.mem_append.mp hx123 with hx12 | hx3
          · rcases List.mem_append.mp hx12 with hx1 | hx2
            · have : Diag.notDistinct bname k =
                  Diag.wrongSubBonusCount bname (Nat.choose n k) k subs.length := by
                revert hx1
                split <;> simp
              exact absurd this (by simp)
            · by_cases c : ((subs.map (fun s => s.territory_ids)).dedup).length =
                  subs.length
              · rw [if_pos c] at hx2
                exact absurd hx2 (List.not_mem_nil _)
              · intro hnodup
                apply c
                rw [List.dedup_eq_self.mpr hnodup, List.length_map]
          · exact absurd hx3
              ((validateSubs_no_bucket_diag subs vs ds hsub).2 bname k)
        · exact absurd
            (validateBuckets_distinct_key rest bname n vr dr hrest bname k hx4)
            hk0notin
      · intro hnn
        have c : ¬ ((subs.map (fun s => s.territory_ids)).dedup).length =
            subs.length := by
          intro hlen
          exact hnn ((dedup_length_iff _).mp
            (hlen.trans (List.length_map subs _).symm))
        refine List.mem_append_left _ (List.mem_append_left _
          (List.mem_append_right _ ?_))
        rw [if_neg c]
        exact List.mem_singleton_self _
    · have hknot : k ≠ k0 := by
        intro hkk
        subst hkk
        exact hk0notin (List.mem_map.mpr ⟨(k, subs), htail, rfl⟩)
      have ih := validateBuckets_distinct_iff rest bname n vr dr hrest
        (List.nodup_cons.mp hnd).2 k subs htail
      constructor
      · intro hx
        rcases List.mem_append.mp hx with hx123 | hx4
        · rcases List.mem_append.mp hx123 with hx12 | hx3
          · rcases List.mem_append.mp hx12 with hx1 | hx2
            · have : Diag.notDistinct bname k =
                  Diag.wrongSubBonusCount bname (Nat.choose n k0) k0 subs0.length := by
                revert hx1
                split <;> simp
              exact absurd this (by simp)
            · have : Diag.notDistinct bname k = Diag.notDistinct bname k0 := by
                revert hx2
                split <;> simp
              rw [Diag.notDistinct.injEq] at this
              exact absurd this.2 hknot
          · exact absurd hx3
              ((validateSubs_no_bucket_diag subs0 vs ds hsub).2 bname k)
        · exact ih.mp hx4
      · intro hnn
        exact List.mem_append_right _ (ih.mpr hnn)

/-- C5: for a base bonus whose bucket keys are exactly the sizes
`[2, size]` (the constructor default), `validate` performs the count check
for every such size `k`, recording a count violation for `(b, k)` exactly
when the number of sub-bonuses of size `k` differs from
`C(size - 1, k - 1)`. -/
theorem C5_sub_bonus_count_check (b : BaseBonus) (v : Bool) (d : List Diag)
    (hok : b.validate = some (v, d))
    (hkeys : b.sub_bonuses.map Prod.fst =
      List.range' 2 (b.territory_ids.card - 1))
    (k : Nat) (h2 : 2 ≤ k) (hle : k ≤ b.territory_ids.card) :
    ∃ subs, (k, subs) ∈ b.sub_bonuses ∧
      ((∃ e a, Diag.wrongSubBonusCount b.name e k a ∈ d) ↔
        subs.length ≠ Nat.choose (b.territory_ids.card - 1) (k - 1)) := by
  obtain ⟨iv, vb, db, ht, hb, hv, hd⟩ := baseValidate_inv b v d hok
  subst hd
  have hkmem : k ∈ b.sub_bonuses.map Prod.fst := by
    rw [hkeys, List.mem_range'_1]
    omega
  obtain ⟨p, hpmem, hpfst⟩ := List.mem_map.mp hkmem
  obtain ⟨k2, subs⟩ := p
  cases hpfst
  have hnd : (b.sub_bonuses.map Prod.fst).Nodup := by
    rw [hkeys]
    exact List.nodup_range' _ _
  have hiff := validateBuckets_count_iff _ _ _ _ _ hb hnd _ subs hpmem
  refine ⟨subs, hpmem, ?_⟩
  constructor
  · rintro ⟨e, a, hx⟩
    rcases List.mem_append.mp hx with hx0 | hx1
    · have : Diag.wrongSubBonusCount b.name e k2 a =
          Diag.wrongValue b.name iv b.value := by
        revert hx0
        split <;> simp
      exact absurd this (by simp)
    · exact hiff.mp ⟨e, a, hx1⟩
  · intro hne
    obtain ⟨e, a, hx⟩ := hiff.mpr hne
    exact ⟨e, a, List.mem_append_right _ hx⟩

/-- C5 witness: the concrete base bonus `C1base` (size 2, bucket keys
`[2]`, one sub-bonus of size 2, `C(1, 1) = 1` so the count is right and no
count diagnostic appears). -/
theorem C5_sub_bonus_count_check_witness :
    ∃ subs, (2, subs) ∈ C1base.sub_bonuses ∧
      ((∃ e a, Diag.wrongSubBonusCount C1base.name e 2 a ∈ ([] : List Diag)) ↔
        subs.length ≠ Nat.choose (C1base.territory_ids.card - 1) (2 - 1)) :=
  C5_sub_bonus_count_check C1base true [] (by decide) (by decide) 2
    (by decide) (by decide)

/-- C6: for a base bonus with pairwise-distinct bucket keys (a dict
invariant), `validate` records a distinctness violation for `(b, k)`
exactly when two sub-bonuses at distinct positions in the size-`k` bucket
claim the identical territory-id set. -/
theorem C6_distinctness_check (b : BaseBonus) (v : Bool) (d : List Diag)
    (hok : b.validate = some (v, d))
    (hnd : (b.sub_bonuses.map Prod.fst).Nodup)
    (k : Nat) (subs : List SubBonus) (hmem : (k, subs) ∈ b.sub_bonuses) :
    (Diag.notDistinct b.name k ∈ d ↔
      ¬ (subs.map (fun s => s.territory_ids)).Nodup) := by
  obtain ⟨iv, vb, db, ht, hb, hv, hd⟩ := baseValidate_inv b v d hok
  subst hd
  have hiff := validateBuckets_distinct_iff _ _ _ _ _ hb hnd k subs hmem
  constructor
  · intro hx
    rcases List.mem_append.mp hx with hx0 | hx1
    · have : Diag.notDistinct b.name k = Diag.wrongValue b.name iv b.value := by
        revert hx0
        split <;> simp
      exact absurd this (by simp)
    · exact hiff.mp hx1
  · intro hnn
    exact List.mem_append_right _ (hiff.mpr hnn)

/-- C6 witness: on `C1base` the single size-2 bucket holds one sub-bonus,
its mapped territory-set list has no duplicates, and indeed no
distinctness diagnostic is emitted. -/
theorem C6_distinctness_check_witness :
    Diag.notDistinct C1base.name 2 ∈ ([] : List Diag) ↔
      ¬ ([C1sub].map (fun s => s.territory_ids)).Nodup :=
  C6_distinctness_check C1base true [] (by decide) (by decide) 2 [C1sub]
    (by decide)

/-- A successful `pyGet` returns a member entry. -/
theorem pyGet_mem {α β : Type} [DecidableEq α] :
    ∀ (d : List (α × β)) (k : α) (v : β), pyGet d k = some v → (k, v) ∈ d
  | [], k, v, h => by simp [pyGet] at h
  | p :: rest, k, v, h => by
    unfold pyGet at h
    by_cases hp : p.1 = k
    · rw [if_pos hp] at h
      rw [Option.some_inj] at h
      subst hp
      subst h
      exact List.mem_cons_self _ _
    · rw [if_neg hp] at h
      exact List.mem_cons_of_mem _ (pyGet_mem rest k v h)

/-- `pyDictInsert` with key `key x` and value `x` preserves the invariant
that every entry's key is the key of its value. -/
theorem pyDictInsert_entry_key {α β : Type} [DecidableEq α] (key : β → α)
    (d : List (α × β)) (x : β) (hd : ∀ p ∈ d, p.1 = key p.2) :
    ∀ p ∈ pyDictInsert d (key x) x, p.1 = key p.2 := by
  intro p hp
  unfold pyDictInsert at hp
  by_cases hk : pyHasKey d (key x)
  · rw [if_pos hk] at hp
    obtain ⟨q, hq, hpq⟩ := List.mem_map.mp hp
    by_cases hq1 : q.1 = key x
    · rw [if_pos hq1] at hpq
      subst hpq
      rfl
    · rw [if_neg hq1] at hpq
      subst hpq
      exact hd q hq
  · rw [if_neg hk] at hp
    rcases List.mem_append.mp hp with h1 | h2
    · exact hd p h1
    · rw [List.mem_singleton] at h2
      subst h2
      rfl

/-- `pyDictInsert` preserves an arbitrary predicate on stored values. -/
theorem pyDictInsert_entry_pred {α β : Type} [DecidableEq α] (S : β → Prop)
    (d : List (α × β)) (k : α) (v : β) (hd : ∀ p ∈ d, S p.2) (hv : S v) :
    ∀ p ∈ pyDictInsert d k v, S p.2 := by
  intro p hp
  unfold pyDictInsert at hp
  by_cases hk : pyHasKey d k
  · rw [if_pos hk] at hp
    obtain ⟨q, hq, hpq⟩ := List.mem_map.mp hp
    by_cases hq1 : q.1 = k
    · rw [if_pos hq1] at hpq
      subst hpq
      exact hv
    · rw [if_neg hq1] at hpq
      subst hpq
      exact hd q hq
  · rw [if_neg hk] at hp
    rcases List.mem_append.mp hp with h1 | h2
    · exact hd p h1
    · rw [List.mem_singleton] at h2
      subst h2
      exact hv

/-- Every entry of `pyDictOf key xs` has the key of its value as key, and
its value drawn from `xs`. -/
theorem pyDictOf_entry {α β : Type} [DecidableEq α] (key : β → α)
    (xs : List β) :
    ∀ p ∈ pyDictOf key xs, p.1 = key p.2 ∧ p.2 ∈ xs := by
  unfold pyDictOf
  suffices h : ∀ (d : List (α × β)), (∀ p ∈ d, p.1 = key p.2 ∧ p.2 ∈ xs) →
      ∀ p ∈ xs.foldl (fun d x => pyDictInsert d (key x) x) d,
        p.1 = key p.2 ∧ p.2 ∈ xs from h [] (by simp)
  suffices hgen : ∀ (ys : List β) (d : List (α × β)),
      (∀ y ∈ ys, y ∈ xs) → (∀ p ∈ d, p.1 = key p.2 ∧ p.2 ∈ xs) →
      ∀ p ∈ ys.foldl (fun d x => pyDictInsert d (key x) x) d,
        p.1 = key p.2 ∧ p.2 ∈ xs by
    intro d hd
    exact hgen xs d (fun y hy => hy) hd
  intro ys
  induction ys with
  | nil =>
    intro d hys hd p hp
    rw [List.foldl_nil] at hp
    exact hd p hp
  | cons y rest ih =>
    intro d hys hd p hp
    rw [List.foldl_cons] at hp
    refine ih _ (fun z hz => hys z (List.mem_cons_of_mem _ hz)) ?_ p hp
    intro q hq
    constructor
    · exact pyDictInsert_entry_key key d y (fun r hr => (hd r hr).1) q hq
    · exact pyDictInsert_entry_pred (fun z => z ∈ xs) d (key y) y
        (fun r hr => (hd r hr).2) (hys y (List.mem_cons_self _ _)) q hq

/-- A successful lookup in `pyDictOf key xs` returns a value from `xs`
whose key is the looked-up key. -/
theorem pyGet_pyDictOf {α β : Type} [DecidableEq α] (key : β → α)
    (xs : List β) (k : α) (v : β) (h : pyGet (pyDictOf key xs) k = some v) :
    key v = k ∧ v ∈ xs := by
  have hmem := pyGet_mem _ _ _ h
  have hp := pyDictOf_entry key xs (k, v) hmem
  exact ⟨hp.1.symm, hp.2⟩

/-- When some `'~'`-free non-ocean bonus in the worklist has a name that
resolves no territory, the first classification loop raises `KeyError`. -/
theorem classifyBases_fails (tmap : List (String × Territory)) (ocean : Bonus) :
    ∀ (xs : List Bonus) (d : List (String × CBonus)),
      (∃ b ∈ xs, b.name.toList.contains '~' = false ∧
        b.bonus_id ≠ ocean.bonus_id ∧ pyGet tmap b.name = none) →
      classifyBases tmap ocean d xs = .error .keyError
  | [], d, hex => by
    obtain ⟨b, hb, h1⟩ := hex
    exact absurd hb (by simp)
  | a :: rest, d, hex => by
    obtain ⟨b, hb, hbc, hbid, hbt⟩ := hex
    unfold classifyBases
    by_cases hq : a.name.toList.contains '~' = false ∧ a.bonus_id ≠ ocean.bonus_id
    · rw [if_pos hq]
      cases ht : pyGet tmap a.name with
      | none => rfl
      | some t =>
        rcases List.mem_cons.mp hb with hba | hbrest
        · subst hba
          rw [ht] at hbt
          exact absurd hbt (by simp)
        · exact classifyBases_fails tmap ocean rest _ ⟨b, hbrest, hbc, hbid, hbt⟩
    · rw [if_neg hq]
      rcases List.mem_cons.mp hb with hba | hbrest
      · subst hba
        exact absurd ⟨hbc, hbid⟩ hq
      · exact classifyBases_fails tmap ocean rest d ⟨b, hbrest, hbc, hbid, hbt⟩

/-- A size in the reward-table domain makes `SubBonus.validate` total. -/
theorem subValidate_isSome (s : SubBonus) (h : s.sizeInDomain = true) :
    s.validate.isSome = true := by
  unfold SubBonus.sizeInDomain at h
  cases hs : s.intended_size with
  | none => rw [hs] at h; exact absurd h (by simp)
  | some k =>
    rw [hs] at h
    simp only [Bool.and_eq_true, decide_eq_true_eq] at h
    obtain ⟨h2, h6⟩ := h
    have hiv : ∃ iv, s.intended_value = some iv := by
      rw [intended_value_eq s k hs]
      by_cases hc : s.territory_ids.card = s.base_bonus.territory_ids.card
      · rw [if_pos hc]
        exact ⟨_, (sub_table_eq k h2 h6).2⟩
      · rw [if_neg hc]
        exact ⟨_, (sub_table_eq k h2 h6).1⟩
    obtain ⟨iv, hiv⟩ := hiv
    rw [subValidate_eq s k iv hs hiv]
    rfl

/-- All sizes in domain make the sub-bonus loop total. -/
theorem validateSubs_isSome :
    ∀ subs : List SubBonus, subs.all SubBonus.sizeInDomain = true →
      (validateSubs subs).isSome = true
  | [], _ => rfl
  | s :: rest, h => by
    rw [List.all_cons, Bool.and_eq_true] at h
    obtain ⟨p, hp⟩ := Option.isSome_iff_exists.mp (subValidate_isSome s h.1)
    obtain ⟨q, hq⟩ :=
      Option.isSome_iff_exists.mp (validateSubs_isSome rest h.2)
    obtain ⟨v1, d1⟩ := p
    obtain ⟨v2, d2⟩ := q
    unfold validateSubs
    rw [hp, hq]
    rfl

/-- All sizes in domain make the bucket loop total. -/
theorem validateBuckets_isSome :
    ∀ (entries : List (Nat × List SubBonus)) (bname : String) (n : Nat),
      entries.all (fun p => p.2.all SubBonus.sizeInDomain) = true →
      (validateBuckets bname n entries).isSome = true
  | [], _, _, _ => rfl
  | (k, subs) :: rest, bname, n, h => by
    rw [List.all_cons, Bool.and_eq_true] at h
    obtain ⟨p, hp⟩ := Option.isSome_iff_exists.mp (validateSubs_isSome subs h.1)
    obtain ⟨q, hq⟩ := Option.isSome_iff_exists.mp
      (validateBuckets_isSome rest bname n h.2)
    obtain ⟨v1, d1⟩ := p
    obtain ⟨v2, d2⟩ := q
    unfold validateBuckets
    rw [hp, hq]
    rfl

/-- A classified bonus whose sizes are in domain has a total `validate`. -/
theorem cbValidate_isSome (cb : CBonus) (h : cbInDomain cb = true) :
    cb.validate.isSome = true := by
  cases cb with
  | plain b => rfl
  | sub s => exact subValidate_isSome s h
  | base b =>
    unfold cbInDomain at h
    simp only [Bool.and_eq_true, decide_eq_true_eq] at h
    obtain ⟨⟨h2, h6⟩, hall⟩ := h
    obtain ⟨iv, hiv⟩ :=
      Option.isSome_iff_exists.mp (base_table_isSome b.territory_ids.card h2 h6)
    obtain ⟨p, hp⟩ := Option.isSome_iff_exists.mp
      (validateBuckets_isSome b.sub_bonuses b.name b.territory_ids.card hall)
    obtain ⟨vb, db⟩ := p
    show (BaseBonus.validate b).isSome = true
    unfold BaseBonus.validate
    rw [hiv, hp]
    rfl

/-- All bonuses in domain make the bonus-table loop total. -/
theorem validateBonusTable_isSome :
    ∀ l : List (Int × CBonus), l.all (fun p => cbInDomain p.2) = true →
      (validateBonusTable l).isSome = true
  | [], _ => rfl
  | (i, cb) :: rest, h => by
    rw [List.all_cons, Bool.and_eq_true] at h
    obtain ⟨p, hp⟩ := Option.isSome_iff_exists.mp (cbValidate_isSome cb h.1)
    obtain ⟨q, hq⟩ := Option.isSome_iff_exists.mp
      (validateBonusTable_isSome rest h.2)
    obtain ⟨v1, d1⟩ := p
    obtain ⟨v2, d2⟩ := q
    unfold validateBonusTable
    rw [hp, hq]
    rfl

/-- The ocean-partition check is total once the ocean id resolves. -/
theorem validate_ocean_bonus_isSome (m : EarthseaMap)
    (h : (pyGet m.bonuses OCEAN_BONUS_ID).isSome = true) :
    m.validate_ocean_bonus.isSome = true := by
  obtain ⟨ocb, hocb⟩ := Option.isSome_iff_exists.mp h
  unfold EarthseaMap.validate_ocean_bonus EarthseaMap.ocean_bonus
  rw [hocb]
  rfl

/-- C9: (1) classification raises a `LookupError`-class error whenever
some `'~'`-free non-ocean bonus's name resolves no territory (every
failure up to and including the first classification loop is a
`KeyError`); (2) the sub-bonus registration step raises `KeyError` (a
`LookupError`) when the derived base-bonus name is not a key of the
classification dict; (3) the rule-checking functions raise nothing for
logical violations: whenever the ocean id resolves and all sizes are in
the reward-table domain, `EarthseaMap.validate` returns a result (whose
boolean merely records the violations). -/
theorem C9_error_classes :
    (∀ (mid : Int) (mname : String) (ts : List Territory) (bs : List Bonus),
      (∃ b ∈ (pyDictOf Bonus.bonus_id bs).map Prod.snd,
        b.name.toList.contains '~' = false ∧ b.bonus_id ≠ OCEAN_BONUS_ID ∧
        pyGet (pyDictOf Territory.name
          ((parse_territories_from_api ts).map Prod.snd)) b.name = none) →
      ∃ e, EarthseaMap.parse_map_from_api mid mname ts bs = .error e ∧
        e.isLookupError = true) ∧
    (∀ (d : List (String × CBonus)) (b : Bonus) (sz : Nat),
      parseSizeToken b.name = .ok sz →
      pyGet d (get_base_bonus_name b.name) = none →
      registerSub d b = .error PyError.keyError ∧
        PyError.keyError.isLookupError = true) ∧
    (∀ m : EarthseaMap, mapSizesInDomain m = true →
      (EarthseaMap.validate m).isSome = true) := by
  refine ⟨?_, ?_, ?_⟩
  · intro mid mname ts bs hex
    cases hoc : pyGet (pyDictOf Bonus.bonus_id bs) OCEAN_BONUS_ID with
    | none =>
      refine ⟨.keyError, ?_, rfl⟩
      simp only [EarthseaMap.parse_map_from_api, hoc]
    | some ocean =>
      have hocid : ocean.bonus_id = OCEAN_BONUS_ID :=
        (pyGet_pyDictOf Bonus.bonus_id bs _ _ hoc).1
      obtain ⟨b, hbv, hbc, hbid, hbt⟩ := hex
      have hfail := classifyBases_fails
        (pyDictOf Territory.name ((parse_territories_from_api ts).map Prod.snd))
        ocean ((pyDictOf Bonus.bonus_id bs).map Prod.snd)
        [(ocean.name, .plain ocean)]
        ⟨b, hbv, hbc, (by rw [hocid]; exact hbid), hbt⟩
      refine ⟨.keyError, ?_, rfl⟩
      simp only [EarthseaMap.parse_map_from_api, hoc, hfail]
  · intro d b sz hsz hget
    unfold registerSub
    rw [hsz, hget]
    exact ⟨rfl, rfl⟩
  · intro m h
    unfold mapSizesInDomain at h
    rw [Bool.and_eq_true] at h
    obtain ⟨p, hp⟩ := Option.isSome_iff_exists.mp
      (validate_ocean_bonus_isSome m h.1)
    obtain ⟨q, hq⟩ := Option.isSome_iff_exists.mp
      (validateBonusTable_isSome m.bonuses h.2)
    obtain ⟨v1, d1⟩ := p
    obtain ⟨v2, d2⟩ := q
    unfold EarthseaMap.validate
    rw [hp, hq]
    rfl

/-- C9 witness: a map whose base bonus `"X"` names no territory makes
classification fail with a `LookupError`-class error; a sub-bonus whose
derived base name `"A"` is absent from an empty classification dict gets a
`KeyError`; and `C1map` (all sizes in domain, ocean resolvable) validates
to a result even though its data violates the sea-territory rule. -/
theorem C9_error_classes_witness :
    (∃ e, EarthseaMap.parse_map_from_api 0 "M" ([] : List Territory)
        [⟨1, "O", 0, ∅⟩, ⟨2, "X", 0, ∅⟩] = .error e ∧
        e.isLookupError = true) ∧
    (registerSub [] ⟨5, "~A 1x", 0, ∅⟩ = .error PyError.keyError ∧
      PyError.keyError.isLookupError = true) ∧
    (EarthseaMap.validate C1map).isSome = true :=
  ⟨C9_error_classes.1 0 "M" [] [⟨1, "O", 0, ∅⟩, ⟨2, "X", 0, ∅⟩]
      ⟨⟨2, "X", 0, ∅⟩, by decide, by decide, by decide, by rfl⟩,
   C9_error_classes.2.1 [] ⟨5, "~A 1x", 0, ∅⟩ 2 (by rfl) (by rfl),
   C9_error_classes.2.2 C1map (by decide)⟩

/-! ## Round-trip lemmas -/

/-- `pyHasKey` over an append. -/
theorem pyHasKey_append {α β : Type} [DecidableEq α] (d1 d2 : List (α × β))
    (k : α) : pyHasKey (d1 ++ d2) k = (pyHasKey d1 k || pyHasKey d2 k) := by
  unfold pyHasKey
  exact List.any_append

/-- Inserting a fresh key appends. -/
theorem pyDictInsert_fresh {α β : Type} [DecidableEq α] (d : List (α × β))
    (k : α) (v : β) (h : pyHasKey d k = false) :
    pyDictInsert d k v = d ++ [(k, v)] := by
  unfold pyDictInsert
  rw [h]
  rfl

/-- With pairwise-distinct keys, `pyDictOf` is just the list of key-value
pairs in order. -/
theorem pyDictOf_eq {α β : Type} [DecidableEq α] (key : β → α) :
    ∀ (xs : List β) (d : List (α × β)),
      (∀ x ∈ xs, pyHasKey d (key x) = false) → (xs.map key).Nodup →
      xs.foldl (fun d x => pyDictInsert d (key x) x) d =
        d ++ xs.map (fun x => (key x, x))
  | [], d, hfresh, hnd => by simp
  | x :: rest, d, hfresh, hnd => by
    rw [List.foldl_cons,
      pyDictInsert_fresh d (key x) x (hfresh x (List.mem_cons_self _ _))]
    rw [List.map_cons] at hnd
    rw [pyDictOf_eq key rest (d ++ [(key x, x)]) ?_ (List.nodup_cons.mp hnd).2]
    · simp
    · intro y hy
      rw [pyHasKey_append]
      rw [hfresh y (List.mem_cons_of_mem _ hy)]
      have hne : key x ≠ key y := by
        intro heq
        exact (List.nodup_cons.mp hnd).1 (heq ▸ List.mem_map_of_mem key hy)
      simp [pyHasKey, hne]

/-- `pyDictOf` under distinct keys, stated for the dict itself. -/
theorem pyDictOf_eq_of_nodup {α β : Type} [DecidableEq α] (key : β → α)
    (xs : List β) (hnd : (xs.map key).Nodup) :
    pyDictOf key xs = xs.map (fun x => (key x, x)) := by
  unfold pyDictOf
  rw [pyDictOf_eq key xs [] (fun x _ => rfl) hnd]
  rfl

/-- The default buckets have keys `2..size`. -/
theorem initSubBuckets_keys (n : Nat) :
    (initSubBuckets n).map Prod.fst = List.range' 2 (n - 1) := by
  unfold initSubBuckets
  rw [List.map_map]
  rw [show (Prod.fst ∘ fun (k : Nat) => (k, ([] : List SubBonus))) = id from rfl]
  rw [List.map_id]

/-- The default buckets hold no sub-bonuses. -/
theorem initSubBuckets_flat (n : Nat) (f : SubBonus → Int) :
    (initSubBuckets n).flatMap (fun p => p.2.map f) = [] := by
  unfold initSubBuckets
  induction List.range' 2 (n - 1) with
  | nil => rfl
  | cons k rest ih => simp [ih]

/-- A freshly classified base bonus flattens to its own id. -/
theorem flatIds_mkBase (b : Bonus) (home : Int) :
    (CBonus.base (mkBaseBonus b home)).flatIds = [b.bonus_id] := by
  show b.bonus_id :: (initSubBuckets b.territory_ids.card).flatMap
      (fun p => p.2.map (fun s => s.bonus_id)) = [b.bonus_id]
  rw [initSubBuckets_flat]

/-- Success characterization of the first classification loop: the result
extends the incoming dict with one name-keyed `BaseBonus` entry per
qualifying record, in order. -/
theorem classifyBases_ok_char (tmap : List (String × Territory)) (ocean : Bonus) :
    ∀ (xs : List Bonus) (d d1 : List (String × CBonus)),
      classifyBases tmap ocean d xs = .ok d1 →
      (∀ b ∈ xs, isBaseRec ocean b = true → pyHasKey d b.name = false) →
      ((xs.filter (isBaseRec ocean)).map Bonus.name).Nodup →
      ∃ tl, d1 = d ++ tl ∧
        List.Forall₂ (fun (b : Bonus) (p : String × CBonus) =>
          p.1 = b.name ∧ ∃ home, p.2 = CBonus.base (mkBaseBonus b home))
          (xs.filter (isBaseRec ocean)) tl
  | [], d, d1, h, hfresh, hnames => by
    unfold classifyBases at h
    rw [Except.ok.injEq] at h
    exact ⟨[], by rw [← h]; simp, by simp⟩
  | a :: rest, d, d1, h, hfresh, hnames => by
    unfold classifyBases at h
    split at h
    next hq =>
      split at h
      next ht => exact absurd h (by simp)
      next t ht =>
        have hqb : isBaseRec ocean a = true := decide_eq_true hq
        have hfa : pyHasKey d a.name = false :=
          hfresh a (List.mem_cons_self _ _) hqb
        rw [pyDictInsert_fresh d a.name _ hfa] at h
        rw [List.filter_cons_of_pos hqb, List.map_cons] at hnames
        obtain ⟨hnotin, hnd2⟩ := List.nodup_cons.mp hnames
        obtain ⟨tl, htl1, htl2⟩ := classifyBases_ok_char tmap ocean rest
          (d ++ [(a.name, .base (mkBaseBonus a t.territory_id))]) d1 h
          (by
            intro b hb hqb2
            rw [pyHasKey_append, hfresh b (List.mem_cons_of_mem _ hb) hqb2]
            have hbname : b.name ∈ (rest.filter (isBaseRec ocean)).map Bonus.name :=
              List.mem_map_of_mem _ (List.mem_filter.mpr ⟨hb, hqb2⟩)
            have hane : a.name ≠ b.name := fun he => hnotin (he ▸ hbname)
            simp [pyHasKey, hane])
          hnd2
        refine ⟨(a.name, .base (mkBaseBonus a t.territory_id)) :: tl, ?_, ?_⟩
        · rw [htl1]
          simp
        · rw [List.filter_cons_of_pos hqb]
          exact List.Forall₂.cons ⟨rfl, t.territory_id, rfl⟩ htl2
    next hq =>
      have hqb : isBaseRec ocean a = false := decide_eq_false hq
      have hfilter : (a :: rest).filter (isBaseRec ocean) =
          rest.filter (isBaseRec ocean) :=
        List.filter_cons_of_neg (by simp [hqb])
      rw [hfilter] at hnames
      obtain ⟨tl, h1, h2⟩ := classifyBases_ok_char tmap ocean rest d d1 h
        (fun b hb hq2 => hfresh b (List.mem_cons_of_mem _ hb) hq2) hnames
      exact ⟨tl, h1, by rw [hfilter]; exact h2⟩

/-- Facts read off the Forall₂ correspondence of `classifyBases_ok_char`:
keys, top-level ids, flattened ids and bucket-key distinctness of the new
entries. -/
theorem forall2_base_entries {xs : List Bonus} {tl : List (String × CBonus)}
    (h : List.Forall₂ (fun (b : Bonus) (p : String × CBonus) =>
      p.1 = b.name ∧ ∃ home, p.2 = CBonus.base (mkBaseBonus b home)) xs tl) :
    tl.map Prod.fst = xs.map Bonus.name ∧
    tl.map (fun p => p.2.bonus_id) = xs.map Bonus.bonus_id ∧
    dFlat tl = xs.map Bonus.bonus_id ∧
    (∀ p ∈ tl, ∀ bb, p.2 = CBonus.base bb →
      (bb.sub_bonuses.map Prod.fst).Nodup) := by
  induction h with
  | nil => exact ⟨rfl, rfl, rfl, by simp⟩
  | @cons b p xs2 tl2 hhead htail ih =>
    obtain ⟨hn, home, hcb⟩ := hhead
    obtain ⟨ih1, ih2, ih3, ih4⟩ := ih
    refine ⟨?_, ?_, ?_, ?_⟩
    · rw [List.map_cons, List.map_cons, hn, ih1]
    · rw [List.map_cons, List.map_cons, hcb, ih2]
      rfl
    · show p.2.flatIds ++ dFlat tl2 = _
      rw [hcb, flatIds_mkBase, ih3, List.map_cons]
      rfl
    · intro q hq bb hbb
      rcases List.mem_cons.mp hq with hq1 | hq2
      · subst hq1
        rw [hcb] at hbb
        rw [CBonus.base.injEq] at hbb
        rw [← hbb]
        show ((mkBaseBonus b home).sub_bonuses.map Prod.fst).Nodup
        show ((initSubBuckets b.territory_ids.card).map Prod.fst).Nodup
        rw [initSubBuckets_keys]
        exact List.nodup_range' _ _
      · exact ih4 q hq2 bb hbb

/-- A successful lookup splits the dict around its (first) entry. -/
theorem pyGet_decomp {α β : Type} [DecidableEq α] :
    ∀ (d : List (α × β)) (k : α) (v : β), pyGet d k = some v →
      (d.map Prod.fst).Nodup →
      ∃ l1 l2, d = l1 ++ (k, v) :: l2 ∧
        (∀ p ∈ l1, p.1 ≠ k) ∧ (∀ p ∈ l2, p.1 ≠ k)
  | [], k, v, h, _ => by simp [pyGet] at h
  | p :: rest, k, v, h, hnd => by
    rw [List.map_cons, List.nodup_cons] at hnd
    unfold pyGet at h
    by_cases hp : p.1 = k
    · rw [if_pos hp] at h
      rw [Option.some_inj] at h
      refine ⟨[], rest, ?_, by simp, ?_⟩
      · rw [List.nil_append, ← hp, ← h]
      · intro q hq hqk
        exact hnd.1 (hp ▸ hqk ▸ List.mem_map_of_mem Prod.fst hq)
    · rw [if_neg hp] at h
      obtain ⟨l1, l2, hd, h1, h2⟩ := pyGet_decomp rest k v h hnd.2
      exact ⟨p :: l1, l2, by rw [hd]; rfl,
        fun q hq => (List.mem_cons.mp hq).elim (fun he => he ▸ hp) (h1 q),
        h2⟩

/-- A successful lookup means the key is present. -/
theorem pyHasKey_of_pyGet {α β : Type} [DecidableEq α] (d : List (α × β))
    (k : α) (v : β) (h : pyGet d k = some v) : pyHasKey d k = true := by
  have hmem := pyGet_mem d k v h
  unfold pyHasKey
  rw [List.any_eq_true]
  exact ⟨(k, v), hmem, by simp⟩

/-- Inserting at a present key overwrites in place. -/
theorem pyDictInsert_overwrite {α β : Type} [DecidableEq α]
    (d : List (α × β)) (k : α) (v : β) (h : pyHasKey d k = true) :
    pyDictInsert d k v = d.map (fun p => if p.1 = k then (k, v) else p) := by
  unfold pyDictInsert
  rw [h]
  rfl

/-- The in-place overwrite on a split dict changes exactly the split
entry. -/
theorem map_overwrite_decomp {α β : Type} [DecidableEq α]
    (l1 l2 : List (α × β)) (k : α) (v w : β)
    (h1 : ∀ p ∈ l1, p.1 ≠ k) (h2 : ∀ p ∈ l2, p.1 ≠ k) :
    (l1 ++ (k, v) :: l2).map (fun p => if p.1 = k then (k, w) else p) =
      l1 ++ (k, w) :: l2 := by
  rw [List.map_append, List.map_cons]
  have e1 : ∀ p ∈ l1, (if p.1 = k then (k, w) else p) = id p :=
    fun p hp => if_neg (h1 p hp)
  have e2 : ∀ p ∈ l2, (if p.1 = k then (k, w) else p) = id p :=
    fun p hp => if_neg (h2 p hp)
  rw [List.map_congr_left e1, List.map_congr_left e2, List.map_id, List.map_id]
  rw [if_pos rfl]

/-- Registering one sub-bonus into a bucket dict with distinct keys keeps
the keys and adds exactly that sub-bonus's id to the flattened ids. -/
theorem addSubToBuckets_props (sz : Nat) (s : SubBonus)
    (bk bk2 : List (Nat × List SubBonus))
    (h : addSubToBuckets sz s bk = .ok bk2)
    (hnd : (bk.map Prod.fst).Nodup) :
    bk2.map Prod.fst = bk.map Prod.fst ∧
    ((bk2.flatMap (fun p => p.2.map (fun q => q.bonus_id))) : Multiset Int) =
      (bk.flatMap (fun p => p.2.map (fun q => q.bonus_id)) : List Int) +
        {s.bonus_id} := by
  unfold addSubToBuckets at h
  split at h
  next hk =>
    rw [Except.ok.injEq] at h
    subst h
    constructor
    · rw [List.map_map]
      have : ∀ p ∈ bk, (Prod.fst ∘ fun p =>
          if p.1 = sz then (p.1, p.2 ++ [s]) else p) p = Prod.fst p := by
        intro p hp
        by_cases hpk : p.1 = sz <;> simp [Function.comp, hpk]
      rw [List.map_congr_left this]
    · have hk2 : ∃ p ∈ bk, p.1 = sz := by
        unfold pyHasKey at hk
        rw [List.any_eq_true] at hk
        obtain ⟨p, hp, hpk⟩ := hk
        exact ⟨p, hp, of_decide_eq_true hpk⟩
      obtain ⟨⟨k0, subs0⟩, hp, hpk⟩ := hk2
      cases hpk
      obtain ⟨l1, l2, hbk⟩ := List.append_of_mem hp
      subst hbk
      rw [List.map_append, List.map_cons] at hnd
      rw [List.nodup_append] at hnd
      obtain ⟨hndA, hndB, hdisj⟩ := hnd
      have h1 : ∀ p ∈ l1, p.1 ≠ k0 := by
        intro p hp1 hpk1
        refine hdisj (List.mem_map_of_mem Prod.fst hp1) ?_
        rw [hpk1]
        exact List.mem_cons_self _ _
      have h2 : ∀ p ∈ l2, p.1 ≠ k0 := by
        intro p hp2 hpk2
        have hm := List.mem_map_of_mem Prod.fst hp2
        rw [hpk2] at hm
        exact (List.nodup_cons.mp hndB).1 hm
      have hover : (l1 ++ (k0, subs0) :: l2).map
          (fun p => if p.1 = k0 then (p.1, p.2 ++ [s]) else p) =
          l1 ++ (k0, subs0 ++ [s]) :: l2 := by
        rw [List.map_append, List.map_cons]
        have e1 : ∀ p ∈ l1,
            (if p.1 = k0 then (p.1, p.2 ++ [s]) else p) = id p :=
          fun p hp1 => if_neg (h1 p hp1)
        have e2 : ∀ p ∈ l2,
            (if p.1 = k0 then (p.1, p.2 ++ [s]) else p) = id p :=
          fun p hp2 => if_neg (h2 p hp2)
        rw [List.map_congr_left e1, List.map_congr_left e2,
          List.map_id, List.map_id]
        rw [if_pos rfl]
      rw [hover]
      rw [List.flatMap_append, List.flatMap_cons, List.flatMap_append,
        List.flatMap_cons]
      simp only [List.map_append, ← Multiset.coe_add, List.map_cons,
        List.map_nil]
      rw [show ((([s.bonus_id] : List Int)) : Multiset Int) = {s.bonus_id} from rfl]
      have hac : ∀ A E B X : Multiset Int, A + (E + X + B) = A + (E + B) + X := by
        intro A E B X
        simp only [add_comm, add_left_comm, add_assoc]
      exact hac _ _ _ _
  next hk => exact absurd h (by simp)

/-- Registering one `'~'`-named bonus keeps the classification dict's keys
and top-level ids, preserves bucket-key distinctness, and adds exactly the
registered bonus's id to the flattened ids. -/
theorem registerSub_props (d : List (String × CBonus)) (b : Bonus)
    (d2 : List (String × CBonus)) (h : registerSub d b = .ok d2)
    (hkeys : (d.map Prod.fst).Nodup)
    (hbuckets : ∀ p ∈ d, ∀ bb, p.2 = CBonus.base bb →
      (bb.sub_bonuses.map Prod.fst).Nodup) :
    d2.map Prod.fst = d.map Prod.fst ∧
    d2.map (fun p => p.2.bonus_id) = d.map (fun p => p.2.bonus_id) ∧
    (∀ p ∈ d2, ∀ bb, p.2 = CBonus.base bb →
      (bb.sub_bonuses.map Prod.fst).Nodup) ∧
    ((dFlat d2 : List Int) : Multiset Int) =
      (dFlat d : List Int) + {b.bonus_id} := by
  unfold registerSub at h
  split at h
  next e hsz => exact absurd h (by simp)
  next sz hsz =>
    split at h
    next hget => exact absurd h (by simp)
    next bb hget =>
      split at h
      next e hadd => exact absurd h (by simp)
      next bk hadd =>
        rw [Except.ok.injEq] at h
        subst h
        have hbbnd : (bb.sub_bonuses.map Prod.fst).Nodup :=
          hbuckets _ (pyGet_mem _ _ _ hget) bb rfl
        obtain ⟨hbkkeys, hbkflat⟩ :=
          addSubToBuckets_props sz _ bb.sub_bonuses bk hadd hbbnd
        obtain ⟨l1, l2, hd, h1, h2⟩ :=
          pyGet_decomp d (get_base_bonus_name b.name) (.base bb) hget hkeys
        rw [pyDictInsert_overwrite _ _ _
          (pyHasKey_of_pyGet _ _ _ hget)]
        subst hd
        rw [map_overwrite_decomp l1 l2 _ _ _ h1 h2]
        refine ⟨?_, ?_, ?_, ?_⟩
        · rw [List.map_append, List.map_append, List.map_cons, List.map_cons]
        · rw [List.map_append, List.map_append, List.map_cons, List.map_cons]
          rfl
        · intro p hp bb2 hpb
          rcases List.mem_append.mp hp with hpl | hpr
          · exact hbuckets p (List.mem_append_left _ hpl) bb2 hpb
          · rcases List.mem_cons.mp hpr with hpe | hpl2
            · subst hpe
              rw [CBonus.base.injEq] at hpb
              rw [← hpb]
              show ((bk.map Prod.fst : List Nat)).Nodup
              rw [hbkkeys]
              exact hbbnd
            · exact hbuckets p
                (List.mem_append_right _ (List.mem_cons_of_mem _ hpl2)) bb2 hpb
        · unfold dFlat
          rw [List.flatMap_append, List.flatMap_cons,
            List.flatMap_append, List.flatMap_cons]
          have hflat2 : (CBonus.base ⟨bb.bonus_id, bb.name, bb.value,
              bb.territory_ids, bb.base_territory_id, bk⟩).flatIds =
              bb.bonus_id :: bk.flatMap (fun p => p.2.map (fun q => q.bonus_id)) :=
            rfl
          have hflat1 : (CBonus.base bb).flatIds =
              bb.bonus_id :: bb.sub_bonuses.flatMap
                (fun p => p.2.map (fun q => q.bonus_id)) := rfl
          rw [hflat2, hflat1]
          simp only [← Multiset.coe_add, ← Multiset.cons_coe]
          rw [← Multiset.singleton_add, ← Multiset.singleton_add]
          rw [hbkflat]
          have hac : ∀ A C E B X : Multiset Int,
              A + (C + (E + X) + B) = A + (C + E + B) + X := by
            intro A C E B X
            simp only [add_comm, add_left_comm, add_assoc]
          exact hac _ _ _ _ _
    next val hnb hget => exact absurd h (by simp)

/-- The second classification loop keeps the dict's keys and top-level
ids and adds exactly the ids of the `'~'`-named records to the flattened
ids. -/
theorem classifySubs_props :
    ∀ (xs : List Bonus) (d d2 : List (String × CBonus)),
      classifySubs d xs = .ok d2 →
      (d.map Prod.fst).Nodup →
      (∀ p ∈ d, ∀ bb, p.2 = CBonus.base bb →
        (bb.sub_bonuses.map Prod.fst).Nodup) →
      d2.map Prod.fst = d.map Prod.fst ∧
      d2.map (fun p => p.2.bonus_id) = d.map (fun p => p.2.bonus_id) ∧
      ((dFlat d2 : List Int) : Multiset Int) =
        (dFlat d : List Int) +
          ((xs.filter (fun b => b.name.toList.contains '~')).map
            Bonus.bonus_id : List Int)
  | [], d, d2, h, hk, hb => by
    unfold classifySubs at h
    rw [Except.ok.injEq] at h
    subst h
    exact ⟨rfl, rfl, by simp⟩
  | a :: rest, d, d2, h, hk, hb => by
    unfold classifySubs at h
    split at h
    next hcont =>
      split at h
      next e hreg => exact absurd h (by simp)
      next d3 hreg =>
        obtain ⟨hk3, hid3, hbk3, hflat3⟩ := registerSub_props d a d3 hreg hk hb
        obtain ⟨hk2, hid2, hflat2⟩ := classifySubs_props rest d3 d2 h
          (by rw [hk3]; exact hk) hbk3
        refine ⟨hk2.trans hk3, hid2.trans hid3, ?_⟩
        have hfilter : (a :: rest).filter (fun b => b.name.toList.contains '~') =
            a :: rest.filter (fun b => b.name.toList.contains '~') := by
          rw [List.filter_cons, if_pos hcont]
        rw [hfilter, List.map_cons]
        rw [hflat2, hflat3]
        rw [← Multiset.cons_coe, ← Multiset.singleton_add]
        simp only [add_assoc]
    next hcont =>
      obtain ⟨hk2, hid2, hflat2⟩ := classifySubs_props rest d d2 h hk hb
      have hfilter : (a :: rest).filter (fun b => b.name.toList.contains '~') =
          rest.filter (fun b => b.name.toList.contains '~') := by
        rw [List.filter_cons, if_neg hcont]
      rw [hfilter]
      exact ⟨hk2, hid2, hflat2⟩

/-- With pairwise-distinct ids, filtering by a predicate that forces the
ocean id keeps exactly the ocean record. -/
theorem filter_unique_id :
    ∀ (bs : List Bonus) (oc : Bonus) (R : Bonus → Bool),
      (bs.map Bonus.bonus_id).Nodup → oc ∈ bs →
      (∀ b, R b = true → b.bonus_id = oc.bonus_id) → R oc = true →
      bs.filter R = [oc]
  | [], oc, R, hnd, hmem, hR, hRoc => absurd hmem (by simp)
  | a :: rest, oc, R, hnd, hmem, hR, hRoc => by
    rw [List.map_cons, List.nodup_cons] at hnd
    by_cases hRa : R a = true
    · have haoc : a = oc := by
        rcases List.mem_cons.mp hmem with h1 | h2
        · exact h1.symm
        · have hm := List.mem_map_of_mem Bonus.bonus_id h2
          rw [← hR a hRa] at hm
          exact absurd hm hnd.1
      subst haoc
      rw [List.filter_cons_of_pos hRa]
      rw [List.filter_eq_nil_iff.mpr ?_]
      intro b hb hRb
      have hm := List.mem_map_of_mem Bonus.bonus_id hb
      rw [hR b hRb] at hm
      exact hnd.1 hm
    · have hne : a ≠ oc := fun he => hRa (he ▸ hRoc)
      have hoc2 : oc ∈ rest :=
        (List.mem_cons.mp hmem).resolve_left (fun h => hne h.symm)
      rw [List.filter_cons_of_neg hRa]
      exact filter_unique_id rest oc R hnd.2 hoc2 hR hRoc

/-- With distinct top-level ids, the re-keying step keeps the values in
order, so the flattened ids of the final map are those of the
classification dict. -/
theorem flatBonusIds_rekey (mid : Int) (mname : String)
    (tts : List (Int × Territory)) (d : List (String × CBonus))
    (h : (d.map (fun p => p.2.bonus_id)).Nodup) :
    (EarthseaMap.mk mid mname tts (rekeyById d)).flatBonusIds = dFlat d := by
  have hre : rekeyById d = (d.map Prod.snd).map (fun cb => (cb.bonus_id, cb)) := by
    unfold rekeyById
    apply pyDictOf_eq_of_nodup
    rw [List.map_map]
    exact h
  show (rekeyById d).flatMap (fun p => p.2.flatIds) = dFlat d
  rw [hre, List.flatMap_map]
  show (d.map Prod.snd).flatMap CBonus.flatIds = dFlat d
  rw [List.flatMap_map]
  rfl

/-- The multiset of input ids splits into the `'~'`-named records, the
ocean record, and the base records. -/
theorem partition_ids (bs : List Bonus) (ocean : Bonus)
    (hIds : (bs.map Bonus.bonus_id).Nodup) (hmem : ocean ∈ bs)
    (hoid : ocean.bonus_id = OCEAN_BONUS_ID)
    (hoccont : ocean.name.toList.contains '~' = false) :
    (↑(bs.map Bonus.bonus_id) : Multiset Int) =
      (((bs.filter (fun b => b.name.toList.contains '~')).map Bonus.bonus_id :
        List Int) : Multiset Int) +
      ({ocean.bonus_id} +
        (((bs.filter (isBaseRec ocean)).map Bonus.bonus_id :
          List Int) : Multiset Int)) := by
  have hsplit : ∀ (l : List Bonus) (p : Bonus → Bool),
      (↑(l.map Bonus.bonus_id) : Multiset Int) =
        ↑((l.filter p).map Bonus.bonus_id) +
        ↑((l.filter (fun b => !(p b))).map Bonus.bonus_id) := by
    intro l p
    have hp := (List.filter_append_perm p l).map Bonus.bonus_id
    rw [List.map_append] at hp
    have hpc := Multiset.coe_eq_coe.mpr hp
    rw [← hpc, ← Multiset.coe_add]
  rw [hsplit bs (fun b => b.name.toList.contains '~')]
  congr 1
  have hl2nd : ((bs.filter (fun b => !(b.name.toList.contains '~'))).map
      Bonus.bonus_id).Nodup :=
    hIds.sublist ((List.filter_sublist bs).map Bonus.bonus_id)
  have hocl2 : ocean ∈ bs.filter (fun b => !(b.name.toList.contains '~')) :=
    List.mem_filter.mpr ⟨hmem, by rw [hoccont]; rfl⟩
  rw [hsplit (bs.filter (fun b => !(b.name.toList.contains '~')))
    (fun b => decide (b.bonus_id = OCEAN_BONUS_ID))]
  congr 1
  · rw [filter_unique_id _ ocean _ hl2nd hocl2
      (fun b hb => by rw [of_decide_eq_true hb, hoid])
      (by rw [hoid]; simp)]
    rfl
  · congr 1
    rw [List.filter_filter]
    congr 1
    apply List.filter_congr
    intro b hb
    unfold isBaseRec
    by_cases hc : b.name.toList.contains '~' <;>
    by_cases hi : b.bonus_id = OCEAN_BONUS_ID <;>
      simp [hc, hi, hoid]

/-- C4 (amended): for an input bonus list with pairwise-distinct ids,
pairwise-distinct names among its `'~'`-free records, and a `'~'`-free
name on the ocean record (id 1), a successful classification re-flattens
to exactly the original ids — no bonus dropped, none duplicated. -/
theorem C4_roundtrip (mid : Int) (mname : String) (ts : List Territory)
    (bs : List Bonus) (m : EarthseaMap)
    (hok : EarthseaMap.parse_map_from_api mid mname ts bs = .ok m)
    (hIds : (bs.map Bonus.bonus_id).Nodup)
    (hNames : ((bs.filter (fun b => !(b.name.toList.contains '~'))).map
      Bonus.name).Nodup)
    (hOceanName : ∀ b ∈ bs, b.bonus_id = OCEAN_BONUS_ID →
      b.name.toList.contains '~' = false) :
    m.flatBonusIds.Perm (bs.map Bonus.bonus_id) := by
  have hdict : pyDictOf Bonus.bonus_id bs = bs.map (fun b => (b.bonus_id, b)) :=
    pyDictOf_eq_of_nodup _ _ hIds
  have hvals : (pyDictOf Bonus.bonus_id bs).map Prod.snd = bs := by
    rw [hdict, List.map_map]
    rw [show (Prod.snd ∘ fun b : Bonus => (b.bonus_id, b)) = id from rfl]
    rw [List.map_id]
  unfold EarthseaMap.parse_map_from_api at hok
  split at hok
  next hoc => exact absurd hok (by simp)
  next ocean hoc =>
    split at hok
    next e hcb => exact absurd hok (by simp)
    next d1 hcb =>
      split at hok
      next e hcs => exact absurd hok (by simp)
      next d2 hcs =>
        rw [Except.ok.injEq] at hok
        subst hok
        obtain ⟨hocid, hocbs⟩ := pyGet_pyDictOf Bonus.bonus_id bs _ _ hoc
        have hoccont : ocean.name.toList.contains '~' = false :=
          hOceanName ocean hocbs hocid
        have hocmem : ocean ∈ bs.filter (fun b => !(b.name.toList.contains '~')) :=
          List.mem_filter.mpr ⟨hocbs, by rw [hoccont]; rfl⟩
        have hinj := List.inj_on_of_nodup_map hNames
        have hmemf : ∀ b ∈ bs, isBaseRec ocean b = true →
            b ∈ bs.filter (fun x => !(x.name.toList.contains '~')) := by
          intro b hb hq
          have hbq := of_decide_eq_true hq
          exact List.mem_filter.mpr ⟨hb, by rw [hbq.1]; rfl⟩
        have hsubl : ((bs.filter (isBaseRec ocean)).map Bonus.name).Sublist
            ((bs.filter (fun b => !(b.name.toList.contains '~'))).map
              Bonus.name) := by
          refine List.Sublist.map _ (List.monotone_filter_right bs ?_)
          intro b hb
          have hbq := of_decide_eq_true hb
          rw [hbq.1]
          rfl
        have hnames2 : ((bs.filter (isBaseRec ocean)).map Bonus.name).Nodup :=
          hNames.sublist hsubl
        rw [hvals] at hcb hcs
        have hfresh : ∀ b ∈ bs, isBaseRec ocean b = true →
            pyHasKey [(ocean.name, CBonus.plain ocean)] b.name = false := by
          intro b hb hq
          have hbq := of_decide_eq_true hq
          have hbne : b ≠ ocean := fun he => hbq.2 (he ▸ rfl)
          have hne : ocean.name ≠ b.name := by
            intro he
            exact hbne (hinj (hmemf b hb hq) hocmem he.symm)
          simp [pyHasKey, hne]
        obtain ⟨tl, hd1, hf2⟩ :=
          classifyBases_ok_char _ ocean bs _ d1 hcb hfresh hnames2
        obtain ⟨htlkeys, htlids, htlflat, htlbuckets⟩ := forall2_base_entries hf2
        subst hd1
        have hocnotin : ocean.name ∉ (bs.filter (isBaseRec ocean)).map Bonus.name := by
          intro hin
          obtain ⟨b, hbf, hbn⟩ := List.mem_map.mp hin
          obtain ⟨hbbs, hbq⟩ := List.mem_filter.mp hbf
          have hbq2 := of_decide_eq_true hbq
          exact hbq2.2 ((hinj (hmemf b hbbs hbq) hocmem hbn) ▸ rfl)
        have hkeys1 : ((([(ocean.name, CBonus.plain ocean)] ++ tl)).map
            Prod.fst).Nodup := by
          rw [List.map_append, htlkeys]
          rw [show ([(ocean.name, CBonus.plain ocean)].map Prod.fst) =
            [ocean.name] from rfl]
          rw [List.singleton_append]
          exact List.nodup_cons.mpr ⟨hocnotin, hnames2⟩
        have hbuckets1 : ∀ p ∈ [(ocean.name, CBonus.plain ocean)] ++ tl,
            ∀ bb, p.2 = CBonus.base bb →
              (bb.sub_bonuses.map Prod.fst).Nodup := by
          intro p hp bb hbb
          rcases List.mem_append.mp hp with hp1 | hp2
          · rw [List.mem_singleton] at hp1
            subst hp1
            exact absurd hbb (by simp)
          · exact htlbuckets p hp2 bb hbb
        obtain ⟨hk2, hid2, hflat2⟩ :=
          classifySubs_props bs _ d2 hcs hkeys1 hbuckets1
        have htop2 : d2.map (fun p => p.2.bonus_id) =
            ocean.bonus_id :: (bs.filter (isBaseRec ocean)).map Bonus.bonus_id := by
          rw [hid2, List.map_append, htlids]
          rw [show ([(ocean.name, CBonus.plain ocean)].map
            (fun p => p.2.bonus_id)) = [ocean.bonus_id] from rfl]
          rw [List.singleton_append]
        have htopnd : (d2.map (fun p => p.2.bonus_id)).Nodup := by
          rw [htop2]
          refine List.nodup_cons.mpr ⟨?_, ?_⟩
          · intro hin
            obtain ⟨b, hbf, hbn⟩ := List.mem_map.mp hin
            obtain ⟨hbbs, hbq⟩ := List.mem_filter.mp hbf
            exact (of_decide_eq_true hbq).2 hbn
          · exact hIds.sublist ((List.filter_sublist bs).map Bonus.bonus_id)
        rw [flatBonusIds_rekey mid mname _ d2 htopnd]
        rw [← Multiset.coe_eq_coe]
        rw [hflat2]
        have hflat1 : dFlat ([(ocean.name, CBonus.plain ocean)] ++ tl) =
            ocean.bonus_id :: (bs.filter (isBaseRec ocean)).map Bonus.bonus_id := by
          unfold dFlat
          rw [List.flatMap_append]
          rw [show ([(ocean.name, CBonus.plain ocean)].flatMap
            (fun p => p.2.flatIds)) = [ocean.bonus_id] from rfl]
          rw [List.singleton_append]
          congr 1
        rw [hflat1]
        rw [partition_ids bs ocean hIds hocbs hocid hoccont]
        rw [← Multiset.cons_coe, ← Multiset.singleton_add]
        exact add_comm _ _

/-- C4 counterexample: with two base bonuses named `"A"` (ids 2 and 3),
classification succeeds but the name-keyed dict keeps only id 3, so
re-flattening yields `[1, 3]` — bonus 2 is dropped although the original
id set was `[1, 2, 3]`. -/
theorem C4_counterexample :
    (EarthseaMap.parse_map_from_api 5 "M" C4ts C4bs).map
      EarthseaMap.flatBonusIds = .ok [1, 3] ∧
    C4bs.map Bonus.bonus_id = [1, 2, 3] ∧
    ¬ (([1, 3] : List Int).Perm [1, 2, 3]) := by
  refine ⟨by rfl, by rfl, by decide⟩

/-- C4 witness: on `W4bs` (ocean, one base, one sub; distinct ids and
distinct `'~'`-free names) parsing yields `C1map`, whose re-flattened ids
are a permutation of the input ids. -/
theorem C4_roundtrip_witness :
    C1map.flatBonusIds.Perm (W4bs.map Bonus.bonus_id) :=
  C4_roundtrip 5 "M" W4ts W4bs C1map (by rfl) (by decide) (by decide)
    (by decide)
